import Mathlib

/-!
# Verification of the Reel-Infographics-Gen scene pipeline

Shallow embedding of the scene-generation pipeline of the repository:

* the Segmenter's duration derivation and global rescaling
  (`src/services/geminiService.ts`, `analyzeScript`),
* the per-scene image-stage job runner with retry/backoff
  (`src/App.tsx`, `processScene` inside `generateImages`),
* the per-scene video-stage job runner (`src/App.tsx`, `generateVideoForScene`),
* the bounded concurrent scheduler used by both `generateImages` and
  `handleAnimateAll` (the `executing` promise-pool loop, limit 3),
* the Scene Store mutations (`setStoryboard` calls) as a transition system,
* the export gate of `handleExportFullVideo`.

JavaScript numbers are modelled as exact rationals (ℚ); asynchronous
interleaving is modelled by an explicit event trace with an adversarial
choice of which in-flight worker settles at each suspension point.
-/

namespace ReelGen

/-! ## Segmenter model (`src/services/geminiService.ts`)

`analyzeScript` parses the model response into `data`, checks
`!data.scenes || !Array.isArray(data.scenes)`, then maps chunks to scenes
with a word-count based duration and rescales durations into a viability
band.  Rounding to one decimal (`Number.toFixed(1)` re-parsed by
`parseFloat`) is modelled by `round1` on ℚ.
-/

/-- Model of `parseFloat(x.toFixed(1))`: round to the nearest tenth (ties up). -/
def round1 (x : ℚ) : ℚ := ((⌊x * 10 + 1 / 2⌋ : ℤ) : ℚ) / 10

/-- The constant `WORDS_PER_MINUTE = 140` (geminiService.ts line 6). -/
def WORDS_PER_MINUTE : ℚ := 140

/-- Per-scene duration (geminiService.ts lines 93-99):
`rawDuration = wordCount / WORDS_PER_MINUTE * 60`;
`duration = Math.max(3, parseFloat(rawDuration.toFixed(1)))`. -/
def sceneDuration (wordCount : Nat) : ℚ :=
  max 3 (round1 ((wordCount : ℚ) / WORDS_PER_MINUTE * 60))

/-- The rescale factor of `analyzeScript` (geminiService.ts lines 106-116):
`currentTotal = Σ duration`; `factor = 30/total` if total < 30,
`90/total` if total > 90, else 1. -/
def adjustFactor (ds : List ℚ) : ℚ :=
  if ds.sum < 30 then 30 / ds.sum
  else if ds.sum > 90 then 90 / ds.sum
  else 1

/-- The duration-rescaling step of `analyzeScript`
(geminiService.ts lines 118-122), applied to the list of durations:
if `factor !== 1` every duration is replaced by
`parseFloat((duration * factor).toFixed(1))`. -/
def adjustDurations (ds : List ℚ) : List ℚ :=
  if adjustFactor ds ≠ 1 then ds.map (fun d => round1 (d * adjustFactor ds)) else ds

/-- Durations produced by `analyzeScript` for scenes with the given word
counts: per-scene derivation followed by the global rescaling. -/
def analyzeDurations (wordCounts : List Nat) : List ℚ :=
  adjustDurations (wordCounts.map sceneDuration)

theorem round1_mono {x y : ℚ} (h : x ≤ y) : round1 x ≤ round1 y := by
  unfold round1
  have h1 : (⌊x * 10 + 1 / 2⌋ : ℤ) ≤ ⌊y * 10 + 1 / 2⌋ := by
    apply Int.floor_le_floor
    nlinarith
  have h2 : ((⌊x * 10 + 1 / 2⌋ : ℤ) : ℚ) ≤ ((⌊y * 10 + 1 / 2⌋ : ℤ) : ℚ) := by
    exact_mod_cast h1
  linarith

theorem round1_three : round1 3 = 3 := by
  unfold round1
  have h : ⌊(3 : ℚ) * 10 + 1 / 2⌋ = 30 := by
    rw [Int.floor_eq_iff]
    norm_num
  rw [h]
  norm_num

theorem div_ne_one_of_ne {a b : ℚ} (h : a ≠ b) : a / b ≠ 1 := by
  rcases eq_or_ne b 0 with rfl | hb
  · simp
  · intro h1
    exact h ((div_eq_one_iff_eq hb).mp h1)

/-- C3.  For every script analysis result, each scene's duration equals
`max(3.0, wordCount / 140 * 60)` rounded to one decimal; then, letting
`total` be the sum of these durations, if `total < 30` every duration is
multiplied by `30/total` and re-rounded to one decimal, if `total > 90`
every duration is multiplied by `90/total` and re-rounded, and if
`30 ≤ total ≤ 90` every duration is left exactly unchanged. -/
theorem C3_duration_derivation_and_rescaling (wordCounts : List Nat) :
    (∀ wc ∈ wordCounts,
      sceneDuration wc = round1 (max 3 ((wc : ℚ) / 140 * 60))) ∧
    ((wordCounts.map sceneDuration).sum < 30 →
      analyzeDurations wordCounts =
        (wordCounts.map sceneDuration).map
          (fun d => round1 (d * (30 / (wordCounts.map sceneDuration).sum)))) ∧
    ((wordCounts.map sceneDuration).sum > 90 →
      analyzeDurations wordCounts =
        (wordCounts.map sceneDuration).map
          (fun d => round1 (d * (90 / (wordCounts.map sceneDuration).sum)))) ∧
    (30 ≤ (wordCounts.map sceneDuration).sum →
      (wordCounts.map sceneDuration).sum ≤ 90 →
      analyzeDurations wordCounts = wordCounts.map sceneDuration) := by
  refine ⟨?_, ?_, ?_, ?_⟩
  · intro wc _
    unfold sceneDuration WORDS_PER_MINUTE
    rcases le_total ((wc : ℚ) / 140 * 60) 3 with h | h
    · rw [max_eq_left h,
        max_eq_left (le_trans (round1_mono h) (le_of_eq round1_three))]
      exact round1_three.symm
    · rw [max_eq_right h, max_eq_right (round1_three ▸ round1_mono h)]
  · intro h
    have hf : adjustFactor (wordCounts.map sceneDuration) =
        30 / (wordCounts.map sceneDuration).sum := by
      unfold adjustFactor
      rw [if_pos h]
    have hne : adjustFactor (wordCounts.map sceneDuration) ≠ 1 := by
      rw [hf]
      exact div_ne_one_of_ne (ne_of_gt h)
    unfold analyzeDurations adjustDurations
    rw [if_pos hne, hf]
  · intro h
    have hnlt : ¬ (wordCounts.map sceneDuration).sum < 30 := by linarith
    have hf : adjustFactor (wordCounts.map sceneDuration) =
        90 / (wordCounts.map sceneDuration).sum := by
      unfold adjustFactor
      rw [if_neg hnlt, if_pos h]
    have hne : adjustFactor (wordCounts.map sceneDuration) ≠ 1 := by
      rw [hf]
      exact div_ne_one_of_ne (ne_of_lt h)
    unfold analyzeDurations adjustDurations
    rw [if_pos hne, hf]
  · intro h30 h90
    have hf : adjustFactor (wordCounts.map sceneDuration) = 1 := by
      unfold adjustFactor
      rw [if_neg (by linarith), if_neg (by linarith)]
    unfold analyzeDurations adjustDurations
    rw [if_neg (by rw [hf]; simp)]

/-- A 5-word chunk gets the 3-second floor: `5/140*60 ≈ 2.14`, rounded
to `2.1`, lifted to the floor `3`. -/
theorem sceneDuration_five : sceneDuration 5 = 3 := by
  unfold sceneDuration WORDS_PER_MINUTE round1
  push_cast
  have h : ⌊(5 : ℚ) / 140 * 60 * 10 + 1 / 2⌋ = 21 := by
    rw [Int.floor_eq_iff]
    norm_num
  rw [h]
  rw [max_eq_left (by norm_num)]

/-- A 100-word chunk: `100/140*60 ≈ 42.86`, rounded to `42.9`. -/
theorem sceneDuration_hundred : sceneDuration 100 = 429 / 10 := by
  unfold sceneDuration WORDS_PER_MINUTE round1
  push_cast
  have h : ⌊(100 : ℚ) / 140 * 60 * 10 + 1 / 2⌋ = 429 := by
    rw [Int.floor_eq_iff]
    norm_num
  rw [h]
  rw [max_eq_right (by norm_num)]
  norm_num

/-- Witness for C3: the spec scenario of three 5-word chunks
(total 9 s < 30, so the `30/total` branch applies) and a two-scene
script whose total `85.8` lies in `[30, 90]` (left unchanged). -/
theorem C3_witness :
    sceneDuration 5 = round1 (max 3 ((5 : ℚ) / 140 * 60)) ∧
    analyzeDurations [5, 5, 5] =
      (List.map sceneDuration [5, 5, 5]).map
        (fun d => round1 (d * (30 / (List.map sceneDuration [5, 5, 5]).sum))) ∧
    analyzeDurations [100, 100] = List.map sceneDuration [100, 100] := by
  refine ⟨(C3_duration_derivation_and_rescaling [5, 5, 5]).1 5 (by simp),
    (C3_duration_derivation_and_rescaling [5, 5, 5]).2.1 ?_,
    (C3_duration_derivation_and_rescaling [100, 100]).2.2.2 ?_ ?_⟩
  · simp only [List.map_cons, List.map_nil, sceneDuration_five,
      List.sum_cons, List.sum_nil]
    norm_num
  · simp only [List.map_cons, List.map_nil, sceneDuration_hundred,
      List.sum_cons, List.sum_nil]
    norm_num
  · simp only [List.map_cons, List.map_nil, sceneDuration_hundred,
      List.sum_cons, List.sum_nil]
    norm_num

/-! ## Data model (`src/types.ts` plus the `videoBlob` field used in App.tsx) -/

/-- Image-stage status: `'pending' | 'generating' | 'completed' | 'error'`. -/
inductive ImgStatus
  | pending
  | generating
  | completed
  | error
deriving DecidableEq, Repr

/-- Video-stage status: `'none' | 'generating' | 'completed' | 'error'`. -/
inductive VidStatus
  | none
  | generating
  | completed
  | error
deriving DecidableEq, Repr

/-- A `Scene` record.  `visualPrompt` is optional here because the raw
model response may omit it (the code never checks it before use). -/
structure SceneRec where
  id : Nat
  text : String
  visualPrompt : Option String
  duration : ℚ
  imageData : Option String
  videoUri : Option String
  videoBlob : Option String
  status : ImgStatus
  videoStatus : VidStatus
deriving DecidableEq, Repr

/-- A `Storyboard`: title plus ordered scenes. -/
structure Storyboard where
  title : String
  scenes : List SceneRec
deriving DecidableEq, Repr

/-! ## `analyzeScript` response validation (geminiService.ts lines 85-127)

The parsed JSON is modelled as an optional title plus an optional list of
raw chunks, each with optional `text`/`visualPrompt` fields.
`scenes = none` stands for `!data.scenes || !Array.isArray(data.scenes)`
(a missing or non-array field; note that an *empty* array is truthy in
JavaScript and passes this check).  Accessing `s.text.split(' ')` on a
chunk without a `text` field throws a `TypeError`; this is modelled by a
field-presence check up front, which is observationally equivalent
because a thrown error discards all partial work. -/

structure RawChunk where
  text : Option String
  visualPrompt : Option String
deriving DecidableEq, Repr

inductive AnalyzeError
  | invalidResponse
  | typeErrorUndefinedText
deriving DecidableEq, Repr

/-- Word count: `s.text.split(' ').length` (geminiService.ts line 93). -/
def sceneWordCount (text : String) : Nat := (text.splitOn " ").length

/-- Scene construction: `data.scenes.map((s, index) => ({ id: index, ... }))`
(geminiService.ts lines 92-103). -/
def buildScenes : Nat → List RawChunk → List SceneRec
  | _, [] => []
  | i, c :: rest =>
    { id := i
      text := c.text.getD ""
      visualPrompt := c.visualPrompt
      duration := sceneDuration (sceneWordCount (c.text.getD ""))
      imageData := Option.none
      videoUri := Option.none
      videoBlob := Option.none
      status := .pending
      videoStatus := .none } :: buildScenes (i + 1) rest

/-- The in-place duration rescaling of geminiService.ts lines 105-122,
on full scene records. -/
def adjustScenes (scenes : List SceneRec) : List SceneRec :=
  if adjustFactor (scenes.map (·.duration)) ≠ 1 then
    scenes.map (fun s =>
      { s with duration := round1 (s.duration * adjustFactor (scenes.map (·.duration))) })
  else scenes

/-- The function `analyzeScript` from the parsed response onward
(geminiService.ts lines 85-127). -/
def analyzeScript (title : Option String) (rawScenes : Option (List RawChunk)) :
    Except AnalyzeError Storyboard :=
  match rawScenes with
  | Option.none => .error .invalidResponse
  | Option.some chunks =>
    if ∀ c ∈ chunks, c.text.isSome then
      .ok { title := title.getD "Untitled Infographic"
            scenes := adjustScenes (buildScenes 0 chunks) }
    else .error .typeErrorUndefinedText

/-- Counterexample to **C6** as stated: an *empty* chunk list does not
make `analyzeScript` fail — `![]` is `false` in JavaScript, so the
`!data.scenes` guard passes and a storyboard with zero scenes is
published. -/
theorem C6_counterexample :
    analyzeScript (Option.some "T") (Option.some []) =
      .ok { title := "T", scenes := [] } := by
  unfold analyzeScript adjustScenes buildScenes adjustFactor
  norm_num

/-- C6 (amended). `analyzeScript` fails — and publishes no partial
storyboard — exactly when the upstream chunk field is missing or not an
array, or some chunk lacks the `text` field; an empty chunk list is
accepted (yielding an empty storyboard), and a missing `visualPrompt`
alone does not make it fail. -/
theorem C6_amended_segmentation_failure (title : Option String)
    (chunks : List RawChunk) :
    analyzeScript title Option.none = .error .invalidResponse ∧
    ((∃ c ∈ chunks, c.text = Option.none) →
      analyzeScript title (Option.some chunks) = .error .typeErrorUndefinedText) ∧
    ((∀ c ∈ chunks, c.text.isSome) →
      ∃ sb, analyzeScript title (Option.some chunks) = .ok sb) := by
  refine ⟨rfl, ?_, ?_⟩
  · rintro ⟨c, hc, hnone⟩
    have hnall : ¬ ∀ c ∈ chunks, c.text.isSome := by
      intro hall
      have := hall c hc
      rw [hnone] at this
      simp at this
    simp only [analyzeScript]
    rw [if_neg hnall]
  · intro hall
    refine ⟨{ title := title.getD "Untitled Infographic"
              scenes := adjustScenes (buildScenes 0 chunks) }, ?_⟩
    simp only [analyzeScript]
    rw [if_pos hall]

/-- Witness for the amended C6: a single chunk lacking `text` fails; a
single well-formed chunk succeeds. -/
theorem C6_witness :
    analyzeScript (Option.some "T") Option.none = .error .invalidResponse ∧
    analyzeScript (Option.some "T")
        (Option.some [{ text := Option.none, visualPrompt := Option.some "p" }]) =
      .error .typeErrorUndefinedText ∧
    ∃ sb, analyzeScript (Option.some "T")
        (Option.some [{ text := Option.some "hello world", visualPrompt := Option.none }]) =
      .ok sb := by
  refine ⟨(C6_amended_segmentation_failure (Option.some "T") []).1,
    (C6_amended_segmentation_failure (Option.some "T")
        [{ text := Option.none, visualPrompt := Option.some "p" }]).2.1 ?_,
    (C6_amended_segmentation_failure (Option.some "T")
        [{ text := Option.some "hello world", visualPrompt := Option.none }]).2.2 ?_⟩
  · exact ⟨{ text := Option.none, visualPrompt := Option.some "p" }, by simp, rfl⟩
  · intro c hc
    simp at hc
    rw [hc]
    rfl

/-! ## Image-stage job runner (`processScene` in App.tsx, lines 73-138)

One attempt = one `generateSceneImage` call.  The runner classifies the
error message of a failed attempt: `'403'`/`'PERMISSION_DENIED'` (checked
first) is batch-fatal; `'429'`/`'RESOURCE_EXHAUSTED'`/`'quota'` is
retryable with backoff; anything else is terminal for the scene.  A
rate-limit message may carry a provider hint `retry in <d>s`; the parsed
hint (in seconds, as an exact rational) is modelled as part of the
attempt result.  The runner is driven by an oracle `results` giving the
outcome of the n-th gateway call; its observable behaviour is the list
of store mutations / waits it performs plus whether it re-throws
(batch-fatal). -/

inductive ImgAttemptResult
  | success (data : String)
  | permissionDenied
  | rateLimited (hint : Option ℚ)
  | other
deriving DecidableEq, Repr

inductive ImgRunEvent
  | markGenerating
  | attemptCall
  | markCompleted (data : String)
  | markError
  | waitMs (ms : ℚ)
deriving DecidableEq, Repr

/-- The `while (!success && retries < MAX_RETRIES)` loop of
`processScene` (App.tsx lines 79-137), with `MAX_RETRIES = 5`.
`attemptIdx` numbers the gateway calls; `retries` is the loop's counter.
Returns the event trace and whether the runner re-threw the error
(the batch-fatal permission case, line 108). -/
def processSceneAux (results : Nat → ImgAttemptResult) (attemptIdx retries : Nat) :
    List ImgRunEvent × Bool :=
  if retries < 5 then
    match results attemptIdx with
    | .success d => ([.markGenerating, .attemptCall, .markCompleted d], false)
    | .permissionDenied => ([.markGenerating, .attemptCall, .markError], true)
    | .rateLimited hint =>
      if 5 ≤ retries + 1 then ([.markGenerating, .attemptCall, .markError], false)
      else
        -- `waitMs = 5000 * Math.pow(2, retries)` after `retries++`,
        -- overridden by `Math.ceil(parseFloat(match[1]) * 1000) + 2000`
        -- when the message carries `retry in <d>s` (lines 121-125).
        let w : ℚ :=
          match hint with
          | Option.some d => ((⌈d * 1000⌉ : ℤ) : ℚ) + 2000
          | Option.none => 5000 * 2 ^ (retries + 1)
        let rest := processSceneAux results (attemptIdx + 1) (retries + 1)
        (.markGenerating :: .attemptCall :: .waitMs w :: rest.1, rest.2)
    | .other => ([.markGenerating, .attemptCall, .markError], false)
  else ([], false)
termination_by 5 - retries

/-- Entry point of `processScene`: `retries = 0`. -/
def processScene (results : Nat → ImgAttemptResult) : List ImgRunEvent × Bool :=
  processSceneAux results 0 0

def isImgAttempt : ImgRunEvent → Bool
  | .attemptCall => true
  | _ => false

/-- Number of gateway calls in an image-runner trace. -/
def imgAttemptCount (evs : List ImgRunEvent) : Nat := evs.countP isImgAttempt

/-- Effect of one image-runner event on the scene's stored image-stage
status. -/
def imgStatusStep (acc : Option ImgStatus) (e : ImgRunEvent) : Option ImgStatus :=
  match e with
  | .markGenerating => Option.some .generating
  | .markCompleted _ => Option.some .completed
  | .markError => Option.some .error
  | _ => acc

/-- The scene's image-stage status after the trace has been applied to
the store (the last status-mutating event wins). -/
def lastImgStatus (evs : List ImgRunEvent) : Option ImgStatus :=
  evs.foldl imgStatusStep Option.none

/-- Whatever the oracle, every exit path of the image-runner loop leaves
the scene `completed` or `error`. -/
theorem processSceneAux_terminal (results : Nat → ImgAttemptResult) :
    ∀ k i r, r < 5 → 5 - r ≤ k → ∀ acc : Option ImgStatus,
      (processSceneAux results i r).1.foldl imgStatusStep acc = Option.some .completed ∨
      (processSceneAux results i r).1.foldl imgStatusStep acc = Option.some .error := by
  intro k
  induction k with
  | zero => intro i r hr hk acc; omega
  | succ k ih =>
    intro i r hr hk acc
    rw [processSceneAux, if_pos hr]
    cases hres : results i with
    | success d => left; simp [imgStatusStep]
    | permissionDenied => right; simp [imgStatusStep]
    | other => right; simp [imgStatusStep]
    | rateLimited hint =>
      by_cases h5 : 5 ≤ r + 1
      · right
        simp only []
        rw [if_pos h5]
        simp [imgStatusStep]
      · simp only []
        rw [if_neg h5]
        simp only [List.foldl_cons]
        exact ih (i + 1) (r + 1) (by omega) (by omega) _

/-- C4.  For every image-stage attempt that fails, the error is
classified into exactly three outcomes: a permission/authorization
failure marks that scene `error` and propagates a batch-fatal signal
(the runner re-throws); a rate-limit/resource-exhausted/quota failure
increments the retry counter and retries until the counter reaches 5,
at which point the scene is marked `error` without affecting the batch;
any other failure immediately marks the scene `error` with no retry and
is non-fatal to the batch. -/
theorem C4_image_error_classification (results : Nat → ImgAttemptResult) :
    (∀ i r, r < 5 → results i = .permissionDenied →
      processSceneAux results i r = ([.markGenerating, .attemptCall, .markError], true)) ∧
    (∀ i r hint, r < 5 → r + 1 < 5 → results i = .rateLimited hint →
      ∃ w, processSceneAux results i r =
        (.markGenerating :: .attemptCall :: .waitMs w ::
            (processSceneAux results (i + 1) (r + 1)).1,
          (processSceneAux results (i + 1) (r + 1)).2)) ∧
    (∀ i r hint, r + 1 = 5 → results i = .rateLimited hint →
      processSceneAux results i r = ([.markGenerating, .attemptCall, .markError], false)) ∧
    (∀ i r, r < 5 → results i = .other →
      processSceneAux results i r = ([.markGenerating, .attemptCall, .markError], false)) ∧
    ((∀ j, j < 5 → ∃ hint, results j = .rateLimited hint) →
      imgAttemptCount (processScene results).1 = 5 ∧
      lastImgStatus (processScene results).1 = Option.some .error ∧
      (processScene results).2 = false) := by
  refine ⟨?_, ?_, ?_, ?_, ?_⟩
  · intro i r hr h
    rw [processSceneAux, if_pos hr, h]
  · intro i r hint hr hr1 h
    cases hint with
    | none =>
      refine ⟨5000 * 2 ^ (r + 1), ?_⟩
      rw [processSceneAux, if_pos hr, h]
      simp only [if_neg (show ¬ 5 ≤ r + 1 by omega)]
    | some d =>
      refine ⟨((⌈d * 1000⌉ : ℤ) : ℚ) + 2000, ?_⟩
      rw [processSceneAux, if_pos hr, h]
      simp only [if_neg (show ¬ 5 ≤ r + 1 by omega)]
  · intro i r hint hr1 h
    rw [processSceneAux, if_pos (by omega : r < 5), h]
    simp only [if_pos (show 5 ≤ r + 1 by omega)]
  · intro i r hr h
    rw [processSceneAux, if_pos hr, h]
  · intro hall
    obtain ⟨h0, e0⟩ := hall 0 (by omega)
    obtain ⟨h1, e1⟩ := hall 1 (by omega)
    obtain ⟨h2, e2⟩ := hall 2 (by omega)
    obtain ⟨h3, e3⟩ := hall 3 (by omega)
    obtain ⟨h4, e4⟩ := hall 4 (by omega)
    unfold processScene
    rw [processSceneAux, if_pos (by omega : 0 < 5), e0]
    simp only [if_neg (show ¬ (5:Nat) ≤ 0 + 1 by omega)]
    rw [processSceneAux, if_pos (by omega : 0 + 1 < 5), e1]
    simp only [if_neg (show ¬ (5:Nat) ≤ 0 + 1 + 1 by omega)]
    rw [processSceneAux, if_pos (by omega : 0 + 1 + 1 < 5), e2]
    simp only [if_neg (show ¬ (5:Nat) ≤ 0 + 1 + 1 + 1 by omega)]
    rw [processSceneAux, if_pos (by omega : 0 + 1 + 1 + 1 < 5), e3]
    simp only [if_neg (show ¬ (5:Nat) ≤ 0 + 1 + 1 + 1 + 1 by omega)]
    rw [processSceneAux, if_pos (by omega : 0 + 1 + 1 + 1 + 1 < 5), e4]
    simp only [if_pos (show (5:Nat) ≤ 0 + 1 + 1 + 1 + 1 + 1 by omega)]
    refine ⟨?_, ?_, trivial⟩
    · cases h0 <;> cases h1 <;> cases h2 <;> cases h3 <;>
        simp [imgAttemptCount, isImgAttempt, List.countP_cons]
    · cases h0 <;> cases h1 <;> cases h2 <;> cases h3 <;>
        simp [lastImgStatus, imgStatusStep]

/-- Witness for C4: a first-attempt permission failure is batch-fatal;
an always-rate-limited oracle ends after exactly 5 attempts in `error`
without the batch-fatal flag; an `other` failure is terminal at once. -/
theorem C4_witness :
    processSceneAux (fun _ => .permissionDenied) 0 0 =
      ([.markGenerating, .attemptCall, .markError], true) ∧
    processSceneAux (fun _ => .other) 0 0 =
      ([.markGenerating, .attemptCall, .markError], false) ∧
    imgAttemptCount (processScene (fun _ => .rateLimited Option.none)).1 = 5 ∧
    lastImgStatus (processScene (fun _ => .rateLimited Option.none)).1 =
      Option.some .error ∧
    (processScene (fun _ => .rateLimited Option.none)).2 = false := by
  have h4 := C4_image_error_classification (fun _ => .rateLimited Option.none)
  have h5 := h4.2.2.2.2 (fun j _ => ⟨Option.none, rfl⟩)
  exact ⟨(C4_image_error_classification (fun _ => .permissionDenied)).1 0 0
      (by omega) rfl,
    (C4_image_error_classification (fun _ => .other)).2.2.2.1 0 0 (by omega) rfl,
    h5.1, h5.2.1, h5.2.2⟩

/-- C5.  For every image-stage rate-limit retry with current retry
count `r+1` (after incrementing from `r`), the wait before the next
attempt is `5000 * 2^(r+1)` milliseconds, unless the failure message
carries a provider-suggested delay of `d` seconds, in which case the
wait is `ceil(d * 1000) + 2000` milliseconds (the provider hint takes
precedence over the exponential default). -/
theorem C5_image_backoff_wait (results : Nat → ImgAttemptResult) :
    (∀ i r, r + 1 < 5 → results i = .rateLimited Option.none →
      ((processSceneAux results i r).1)[2]? =
        Option.some (.waitMs (5000 * 2 ^ (r + 1)))) ∧
    (∀ i r d, r + 1 < 5 → results i = .rateLimited (Option.some d) →
      ((processSceneAux results i r).1)[2]? =
        Option.some (.waitMs (((⌈d * 1000⌉ : ℤ) : ℚ) + 2000))) := by
  constructor
  · intro i r hr h
    rw [processSceneAux, if_pos (by omega : r < 5), h]
    simp only [if_neg (show ¬ 5 ≤ r + 1 by omega)]
    simp
  · intro i r d hr h
    rw [processSceneAux, if_pos (by omega : r < 5), h]
    simp only [if_neg (show ¬ 5 ≤ r + 1 by omega)]
    simp

/-- Witness for C5: with no hint the first retry waits
`5000 * 2 = 10000` ms; with a hint of `2` seconds it waits
`ceil(2000) + 2000 = 4000` ms. -/
theorem C5_witness :
    ((processSceneAux (fun _ => .rateLimited Option.none) 0 0).1)[2]? =
      Option.some (.waitMs 10000) ∧
    ((processSceneAux (fun _ => .rateLimited (Option.some 2)) 0 0).1)[2]? =
      Option.some (.waitMs 4000) := by
  constructor
  · have h := (C5_image_backoff_wait (fun _ => .rateLimited Option.none)).1 0 0
      (by omega) rfl
    norm_num at h
    exact h
  · have h := (C5_image_backoff_wait (fun _ => .rateLimited (Option.some 2))).2 0 0 2
      (by omega) rfl
    have hc : ((⌈(2 : ℚ) * 1000⌉ : ℤ) : ℚ) + 2000 = 4000 := by
      norm_num
    rw [hc] at h
    exact h

/-! ## Video-stage job runner (`generateVideoForScene`, App.tsx lines 184-223)

After the guard (`!scene || !scene.imageData`) and the one-off
`videoStatus: 'generating'` mutation, the `while (!success && retries <
MAX_RETRIES)` loop runs with `MAX_RETRIES = 3`.  A successful attempt
returns the video URI plus an optional best-effort cached blob (the
inner `fetch` try/catch, lines 193-201, is non-fatal); every failure is
treated alike: `retries++`, `error` when `retries >= 3`, otherwise a
fixed 3000 ms wait. -/

inductive VidAttemptResult
  | success (uri : String) (blob : Option String)
  | failure
deriving DecidableEq, Repr

inductive VidRunEvent
  | markGenerating
  | attemptCall
  | markCompleted (uri : String) (blob : Option String)
  | markError
  | waitMs (ms : ℚ)
deriving DecidableEq, Repr

/-- The retry loop of `generateVideoForScene` (App.tsx lines 184-223). -/
def generateVideoLoop (results : Nat → VidAttemptResult) (attemptIdx retries : Nat) :
    List VidRunEvent :=
  if retries < 3 then
    match results attemptIdx with
    | .success uri blob => [.attemptCall, .markCompleted uri blob]
    | .failure =>
      if 3 ≤ retries + 1 then [.attemptCall, .markError]
      else .attemptCall :: .waitMs 3000 :: generateVideoLoop results (attemptIdx + 1) (retries + 1)
  else []
termination_by 3 - retries

/-- The whole post-guard body of `generateVideoForScene`: the scene is
marked `generating` (lines 179-182), then the loop runs. -/
def generateVideoForSceneRun (results : Nat → VidAttemptResult) : List VidRunEvent :=
  .markGenerating :: generateVideoLoop results 0 0

def isVidAttempt : VidRunEvent → Bool
  | .attemptCall => true
  | _ => false

def vidAttemptCount (evs : List VidRunEvent) : Nat := evs.countP isVidAttempt

/-- Effect of one video-runner event on the scene's stored video-stage
status. -/
def vidStatusStep (acc : Option VidStatus) (e : VidRunEvent) : Option VidStatus :=
  match e with
  | .markGenerating => Option.some .generating
  | .markCompleted _ _ => Option.some .completed
  | .markError => Option.some .error
  | _ => acc

def lastVidStatus (evs : List VidRunEvent) : Option VidStatus :=
  evs.foldl vidStatusStep Option.none

/-- Attempt-count bound of the video loop: at most `3 - retries` more
gateway calls. -/
theorem generateVideoLoop_attempts (results : Nat → VidAttemptResult) :
    ∀ k i r, 3 - r ≤ k →
      vidAttemptCount (generateVideoLoop results i r) ≤ 3 - r := by
  intro k
  induction k with
  | zero =>
    intro i r hk
    have hr : ¬ r < 3 := by omega
    rw [generateVideoLoop, if_neg hr]
    simp [vidAttemptCount]
  | succ k ih =>
    intro i r hk
    by_cases hr : r < 3
    · rw [generateVideoLoop, if_pos hr]
      cases hres : results i with
      | success uri blob => simp [vidAttemptCount, List.countP_cons, isVidAttempt]; omega
      | failure =>
        by_cases h3 : 3 ≤ r + 1
        · simp only []
          rw [if_pos h3]
          simp [vidAttemptCount, List.countP_cons, isVidAttempt]
          omega
        · simp only []
          rw [if_neg h3]
          have hrec := ih (i + 1) (r + 1) (by omega)
          simp [vidAttemptCount, List.countP_cons, isVidAttempt] at hrec ⊢
          omega
    · rw [generateVideoLoop, if_neg hr]
      simp [vidAttemptCount]

/-- Every exit path of the video loop (entered with `retries < 3`)
leaves the scene `completed` or `error`. -/
theorem generateVideoLoop_terminal (results : Nat → VidAttemptResult) :
    ∀ k i r, r < 3 → 3 - r ≤ k → ∀ acc : Option VidStatus,
      (generateVideoLoop results i r).foldl vidStatusStep acc = Option.some .completed ∨
      (generateVideoLoop results i r).foldl vidStatusStep acc = Option.some .error := by
  intro k
  induction k with
  | zero => intro i r hr hk acc; omega
  | succ k ih =>
    intro i r hr hk acc
    rw [generateVideoLoop, if_pos hr]
    cases hres : results i with
    | success uri blob => left; simp [vidStatusStep]
    | failure =>
      by_cases h3 : 3 ≤ r + 1
      · right
        simp only []
        rw [if_pos h3]
        simp [vidStatusStep]
      · simp only []
        rw [if_neg h3]
        simp only [List.foldl_cons]
        exact ih (i + 1) (r + 1) (by omega) (by omega) _

/-- All waits emitted by the video loop are the fixed 3000 ms. -/
theorem generateVideoLoop_waits (results : Nat → VidAttemptResult) :
    ∀ k i r, 3 - r ≤ k → ∀ ms, VidRunEvent.waitMs ms ∈ generateVideoLoop results i r →
      ms = 3000 := by
  intro k
  induction k with
  | zero =>
    intro i r hk ms hms
    have hr : ¬ r < 3 := by omega
    rw [generateVideoLoop, if_neg hr] at hms
    simp at hms
  | succ k ih =>
    intro i r hk ms hms
    by_cases hr : r < 3
    · rw [generateVideoLoop, if_pos hr] at hms
      cases hres : results i with
      | success uri blob =>
        rw [hres] at hms
        simp at hms
      | failure =>
        rw [hres] at hms
        by_cases h3 : 3 ≤ r + 1
        · rw [if_pos h3] at hms
          simp at hms
        · rw [if_neg h3] at hms
          simp only [List.mem_cons] at hms
          rcases hms with h | h | h
          · cases h
          · cases h
            rfl
          · exact ih (i + 1) (r + 1) (by omega) ms h
    · rw [generateVideoLoop, if_neg hr] at hms
      simp at hms

/-- C8.  For every scene run through the video stage, the runner
makes at most 3 attempts, waits a fixed 3000 milliseconds between
consecutive attempts, marks the scene's video status `error` after the
3rd failed attempt, and on a successful attempt stores the returned
video reference and marks the status `completed`. -/
theorem C8_video_retry_policy (results : Nat → VidAttemptResult) :
    vidAttemptCount (generateVideoForSceneRun results) ≤ 3 ∧
    (∀ ms, VidRunEvent.waitMs ms ∈ generateVideoForSceneRun results → ms = 3000) ∧
    ((∀ j, j < 3 → results j = .failure) →
      generateVideoForSceneRun results =
        [.markGenerating, .attemptCall, .waitMs 3000, .attemptCall, .waitMs 3000,
          .attemptCall, .markError]) ∧
    (∀ i r uri blob, r < 3 → results i = .success uri blob →
      generateVideoLoop results i r = [.attemptCall, .markCompleted uri blob]) := by
  refine ⟨?_, ?_, ?_, ?_⟩
  · have h := generateVideoLoop_attempts results 3 0 0 (by omega)
    simp only [generateVideoForSceneRun, vidAttemptCount, List.countP_cons] at *
    simp [isVidAttempt]
    omega
  · intro ms hms
    simp only [generateVideoForSceneRun, List.mem_cons] at hms
    rcases hms with h | h
    · cases h
    · exact generateVideoLoop_waits results 3 0 0 (by omega) ms h
  · intro hall
    have e0 := hall 0 (by omega)
    have e1 := hall 1 (by omega)
    have e2 := hall 2 (by omega)
    unfold generateVideoForSceneRun
    rw [generateVideoLoop, if_pos (by omega : 0 < 3), e0]
    simp only [if_neg (show ¬ (3:Nat) ≤ 0 + 1 by omega)]
    rw [generateVideoLoop, if_pos (by omega : 0 + 1 < 3), e1]
    simp only [if_neg (show ¬ (3:Nat) ≤ 0 + 1 + 1 by omega)]
    rw [generateVideoLoop, if_pos (by omega : 0 + 1 + 1 < 3), e2]
    simp only [if_pos (show (3:Nat) ≤ 0 + 1 + 1 + 1 by omega)]
  · intro i r uri blob hr h
    rw [generateVideoLoop, if_pos hr, h]

/-- Witness for C8: an always-failing oracle yields 3 attempts with two
3000 ms waits then `error`; an immediately-successful oracle stores the
reference and completes. -/
theorem C8_witness :
    generateVideoForSceneRun (fun _ => .failure) =
      [.markGenerating, .attemptCall, .waitMs 3000, .attemptCall, .waitMs 3000,
        .attemptCall, .markError] ∧
    generateVideoLoop (fun _ => .success "uri" Option.none) 0 0 =
      [.attemptCall, .markCompleted "uri" Option.none] := by
  exact ⟨(C8_video_retry_policy (fun _ => .failure)).2.2.1 (fun j _ => rfl),
    (C8_video_retry_policy (fun _ => .success "uri" Option.none)).2.2.2 0 0 "uri"
      Option.none (by omega) rfl⟩

/-- C10.  For every scene on which a job runner (image stage or
video stage) makes at least one attempt, when that runner settles —
whether it returns normally or propagates an error — the scene's
corresponding stage status is `completed` or `error`; it is never left
at `generating` (or `pending`/`none` for an attempted scene).  The
image runner always makes an attempt once invoked; the video runner
model covers the post-guard body, which likewise always attempts. -/
theorem C10_runner_settles_terminal (imgResults : Nat → ImgAttemptResult)
    (vidResults : Nat → VidAttemptResult) :
    (lastImgStatus (processScene imgResults).1 = Option.some .completed ∨
      lastImgStatus (processScene imgResults).1 = Option.some .error) ∧
    (lastVidStatus (generateVideoForSceneRun vidResults) = Option.some .completed ∨
      lastVidStatus (generateVideoForSceneRun vidResults) = Option.some .error) := by
  constructor
  · exact processSceneAux_terminal imgResults 5 0 0 (by omega) (by omega) Option.none
  · unfold lastVidStatus generateVideoForSceneRun
    simp only [List.foldl_cons]
    exact generateVideoLoop_terminal vidResults 3 0 0 (by omega) (by omega) _

/-! ## Bounded concurrent scheduler (App.tsx lines 140-166 and 239-256)

Both `generateImages` and `handleAnimateAll` drive their per-scene
workers through the same promise-pool idiom with
`CONCURRENCY_LIMIT = 3`: iterate over the input scenes in order, push a
wrapper promise (which removes itself from `executing` when it settles)
and, when `executing.length >= CONCURRENCY_LIMIT`, `await
Promise.race(executing)`; finally `await Promise.all(executing)`.
`generateImages` additionally checks `if (hasCriticalError) break`
before each admission; the flag is set by the `.catch` wrapper when a
worker re-throws a permission error.

The model: a worker is a `Job` (scene id plus how its promise settles);
the environment chooses, at each suspension point, which in-flight
worker settles next (`choose` picks an index into the in-flight list).
One settle is processed per `Promise.race`; the final `Promise.all` is
the drain.  The observable behaviour is the sequence of `start`
(worker invoked/admitted) and `settle` events. -/

/-- How a worker promise settles.  `processScene` re-throws only the
permission/authorization error (`fatalErr`); every other failure is
swallowed after marking the scene, so the promise resolves
(`errLocal`).  `generateVideoForScene` never re-throws. -/
inductive SchedOutcome
  | ok
  | errLocal
  | fatalErr
deriving DecidableEq, Repr

structure Job where
  id : Nat
  outcome : SchedOutcome
deriving DecidableEq, Repr

inductive SchedEvent
  | start (id : Nat)
  | settle (id : Nat) (o : SchedOutcome)
deriving DecidableEq, Repr

/-- Drain phase, `await Promise.all(executing)`: the remaining in-flight workers
settle one at a time in an environment-chosen order.  The fuel is
initialised to the list length, which exactly suffices. -/
def drainPoolAux (choose : List Job → Nat) : Nat → List Job → List SchedEvent
  | _, [] => []
  | 0, _ :: _ => []
  | Nat.succ fuel, j :: tl =>
    have hi : choose (j :: tl) % (j :: tl).length < (j :: tl).length :=
      Nat.mod_lt _ (by simp)
    .settle ((j :: tl).get ⟨choose (j :: tl) % (j :: tl).length, hi⟩).id
        ((j :: tl).get ⟨choose (j :: tl) % (j :: tl).length, hi⟩).outcome ::
      drainPoolAux choose fuel ((j :: tl).eraseIdx (choose (j :: tl) % (j :: tl).length))

def drainPool (choose : List Job → Nat) (l : List Job) : List SchedEvent :=
  drainPoolAux choose l.length l

/-- The scheduling loop shared by `generateImages` (lines 140-166, with
`stopFatal = true`) and `handleAnimateAll` (lines 239-256, with
`stopFatal = false`): per input job, check `hasCriticalError`, admit
the worker, and if the pool is full wait for one in-flight worker to
settle (`Promise.race`); when the input is exhausted (or the fatal flag
is set) drain the pool (`Promise.all`). -/
def runPool (limit : Nat) (stopFatal : Bool) (choose : List Job → Nat) :
    List Job → List Job → Bool → List SchedEvent
  | [], inflight, _ => drainPool choose inflight
  | j :: rest, inflight, fatalFlag =>
    if stopFatal && fatalFlag then drainPool choose inflight
    else
      if limit ≤ (inflight ++ [j]).length then
        have hi : choose (inflight ++ [j]) % (inflight ++ [j]).length <
            (inflight ++ [j]).length := Nat.mod_lt _ (by simp)
        .start j.id ::
          .settle ((inflight ++ [j]).get
                ⟨choose (inflight ++ [j]) % (inflight ++ [j]).length, hi⟩).id
              ((inflight ++ [j]).get
                ⟨choose (inflight ++ [j]) % (inflight ++ [j]).length, hi⟩).outcome ::
            runPool limit stopFatal choose rest
              ((inflight ++ [j]).eraseIdx
                (choose (inflight ++ [j]) % (inflight ++ [j]).length))
              (fatalFlag ||
                (stopFatal && decide (((inflight ++ [j]).get
                  ⟨choose (inflight ++ [j]) % (inflight ++ [j]).length, hi⟩).outcome =
                    .fatalErr)))
      else .start j.id :: runPool limit stopFatal choose rest (inflight ++ [j]) fatalFlag

/-- The image-stage batch scheduler: `generateImages`. -/
def generateImagesSched (choose : List Job → Nat) (jobs : List Job) : List SchedEvent :=
  runPool 3 true choose jobs [] false

/-- The video-stage batch scheduler: `handleAnimateAll`. -/
def handleAnimateAllSched (choose : List Job → Nat) (jobs : List Job) : List SchedEvent :=
  runPool 3 false choose jobs [] false

def isStartEv : SchedEvent → Bool
  | .start _ => true
  | _ => false

def isSettleEv : SchedEvent → Bool
  | .settle _ _ => true
  | _ => false

/-- Ids of admitted workers, in admission order. -/
def launchesOf : List SchedEvent → List Nat
  | [] => []
  | .start i :: r => i :: launchesOf r
  | .settle _ _ :: r => launchesOf r

/-- Ids of settled workers, in settling order. -/
def settledIds : List SchedEvent → List Nat
  | [] => []
  | .start _ :: r => settledIds r
  | .settle i _ :: r => i :: settledIds r

/-- Maximum number of workers simultaneously in flight along a trace,
starting from `cur` in flight. -/
def peakInflight : Nat → List SchedEvent → Nat
  | cur, [] => cur
  | cur, .start _ :: r => max (cur + 1) (peakInflight (cur + 1) r)
  | cur, .settle _ _ :: r => max cur (peakInflight (cur - 1) r)

theorem drainPoolAux_all_settle (choose : List Job → Nat) :
    ∀ fuel l, ∀ e ∈ drainPoolAux choose fuel l, isSettleEv e = true := by
  intro fuel
  induction fuel with
  | zero =>
    intro l e he
    cases l with
    | nil => simp [drainPoolAux] at he
    | cons j tl => simp [drainPoolAux] at he
  | succ fuel ih =>
    intro l e he
    cases l with
    | nil => simp [drainPoolAux] at he
    | cons j tl =>
      rw [drainPoolAux] at he
      simp only [List.mem_cons] at he
      rcases he with rfl | he
      · rfl
      · exact ih _ e he

theorem launchesOf_drainPoolAux (choose : List Job → Nat) :
    ∀ fuel l, launchesOf (drainPoolAux choose fuel l) = [] := by
  intro fuel
  induction fuel with
  | zero =>
    intro l
    cases l with
    | nil => rfl
    | cons j tl => rfl
  | succ fuel ih =>
    intro l
    cases l with
    | nil => rfl
    | cons j tl =>
      rw [drainPoolAux]
      simp only [launchesOf]
      exact ih _

theorem peakInflight_drainPoolAux (choose : List Job → Nat) :
    ∀ fuel l cur, peakInflight cur (drainPoolAux choose fuel l) ≤ cur := by
  intro fuel
  induction fuel with
  | zero =>
    intro l cur
    cases l with
    | nil => simp [drainPoolAux, peakInflight]
    | cons j tl => simp [drainPoolAux, peakInflight]
  | succ fuel ih =>
    intro l cur
    cases l with
    | nil => simp [drainPoolAux, peakInflight]
    | cons j tl =>
      rw [drainPoolAux]
      simp only [peakInflight]
      have := ih ((j :: tl).eraseIdx (choose (j :: tl) % (j :: tl).length)) (cur - 1)
      omega

theorem perm_get_cons_eraseIdx :
    ∀ (l : List Job) (i : Nat) (h : i < l.length),
      l.Perm (l.get ⟨i, h⟩ :: l.eraseIdx i) := by
  intro l
  induction l with
  | nil => intro i h; simp at h
  | cons a tl ih =>
    intro i h
    cases i with
    | zero => simp [List.eraseIdx]
    | succ i =>
      have hi : i < tl.length := by simpa using h
      have h1 := (ih i hi).cons a
      have h2 : (a :: tl.get ⟨i, hi⟩ :: tl.eraseIdx i).Perm
          (tl.get ⟨i, hi⟩ :: a :: tl.eraseIdx i) :=
        List.Perm.swap (tl.get ⟨i, hi⟩) a (tl.eraseIdx i)
      exact h1.trans h2

theorem settledIds_drainPoolAux_perm (choose : List Job → Nat) :
    ∀ fuel l, l.length ≤ fuel →
      (settledIds (drainPoolAux choose fuel l)).Perm (l.map (·.id)) := by
  intro fuel
  induction fuel with
  | zero =>
    intro l hl
    cases l with
    | nil => simp [drainPoolAux, settledIds]
    | cons j tl => simp at hl
  | succ fuel ih =>
    intro l hl
    cases l with
    | nil => simp [drainPoolAux, settledIds]
    | cons j tl =>
      rw [drainPoolAux]
      simp only [settledIds]
      have hi : choose (j :: tl) % (j :: tl).length < (j :: tl).length :=
        Nat.mod_lt _ (by simp)
      have hlen : ((j :: tl).eraseIdx (choose (j :: tl) % (j :: tl).length)).length + 1 =
          (j :: tl).length := List.length_eraseIdx_add_one hi
      have hrec := ih ((j :: tl).eraseIdx (choose (j :: tl) % (j :: tl).length))
        (by simp at hl hlen ⊢; omega)
      have hperm := perm_get_cons_eraseIdx (j :: tl) (choose (j :: tl) % (j :: tl).length) hi
      have hmap := hperm.map (·.id)
      simp only [List.map_cons] at hmap
      exact (hrec.cons _).trans hmap.symm

theorem peakInflight_drainPool (choose : List Job → Nat) (l : List Job) (cur : Nat) :
    peakInflight cur (drainPool choose l) ≤ cur :=
  peakInflight_drainPoolAux choose l.length l cur

/-- Invariant: starting with fewer than `limit` workers in flight, the
pool never holds more than `limit` workers at any instant. -/
theorem peakInflight_runPool (limit : Nat) (stopFatal : Bool)
    (choose : List Job → Nat) :
    ∀ queue inflight fatalFlag, inflight.length < limit →
      peakInflight inflight.length
        (runPool limit stopFatal choose queue inflight fatalFlag) ≤ limit := by
  intro queue
  induction queue with
  | nil =>
    intro inflight fatalFlag hcur
    exact le_trans (peakInflight_drainPool choose inflight inflight.length) (le_of_lt hcur)
  | cons j rest ih =>
    intro inflight fatalFlag hcur
    rw [runPool]
    by_cases hf : stopFatal && fatalFlag
    · rw [if_pos hf]
      exact le_trans (peakInflight_drainPool choose inflight inflight.length) (le_of_lt hcur)
    · rw [if_neg hf]
      by_cases hfull : limit ≤ (inflight ++ [j]).length
      · rw [if_pos hfull]
        simp only [peakInflight]
        have hi : choose (inflight ++ [j]) % (inflight ++ [j]).length <
            (inflight ++ [j]).length := Nat.mod_lt _ (by simp)
        have hlen : ((inflight ++ [j]).eraseIdx
            (choose (inflight ++ [j]) % (inflight ++ [j]).length)).length =
            inflight.length := by
          have h1 := List.length_eraseIdx_add_one hi
          have h2 : (inflight ++ [j]).length = inflight.length + 1 := by simp
          omega
        have hrec := ih ((inflight ++ [j]).eraseIdx
            (choose (inflight ++ [j]) % (inflight ++ [j]).length))
          (fatalFlag || (stopFatal && decide (((inflight ++ [j]).get
            ⟨choose (inflight ++ [j]) % (inflight ++ [j]).length, hi⟩).outcome =
              SchedOutcome.fatalErr)))
          (by rw [hlen]; exact hcur)
        rw [hlen] at hrec
        have hstep : inflight.length + 1 - 1 = inflight.length := by omega
        rw [hstep]
        refine max_le (by omega) (max_le (by omega) hrec)
      · rw [if_neg hfull]
        simp only [peakInflight]
        have hlt : (inflight ++ [j]).length < limit := by omega
        have hrec := ih (inflight ++ [j]) fatalFlag hlt
        have h2 : (inflight ++ [j]).length = inflight.length + 1 := by simp
        rw [h2] at hrec hlt
        exact max_le (by omega) hrec

/-- Admissions are a front segment of the input, in input order. -/
theorem launchesOf_runPool_app (limit : Nat) (stopFatal : Bool)
    (choose : List Job → Nat) :
    ∀ queue inflight fatalFlag, ∃ t,
      launchesOf (runPool limit stopFatal choose queue inflight fatalFlag) ++ t =
        queue.map (·.id) := by
  intro queue
  induction queue with
  | nil =>
    intro inflight fatalFlag
    exact ⟨[], by simp [runPool, drainPool, launchesOf_drainPoolAux]⟩
  | cons j rest ih =>
    intro inflight fatalFlag
    rw [runPool]
    by_cases hf : stopFatal && fatalFlag
    · rw [if_pos hf]
      exact ⟨(j :: rest).map (·.id), by simp [drainPool, launchesOf_drainPoolAux]⟩
    · rw [if_neg hf]
      by_cases hfull : limit ≤ (inflight ++ [j]).length
      · rw [if_pos hfull]
        obtain ⟨t, ht⟩ := ih ((inflight ++ [j]).eraseIdx
            (choose (inflight ++ [j]) % (inflight ++ [j]).length))
          (fatalFlag || (stopFatal && decide ((((inflight ++ [j]).get
            ⟨choose (inflight ++ [j]) % (inflight ++ [j]).length,
              Nat.mod_lt _ (by simp)⟩).outcome) = .fatalErr)))
        refine ⟨t, ?_⟩
        simp only [launchesOf, List.map_cons, List.cons_append]
        rw [ht]
      · rw [if_neg hfull]
        obtain ⟨t, ht⟩ := ih (inflight ++ [j]) fatalFlag
        refine ⟨t, ?_⟩
        simp only [launchesOf, List.map_cons, List.cons_append]
        rw [ht]

/-- With `stopFatal = false` (the video stage) every input job is
admitted, in order. -/
theorem launchesOf_runPool_noStop (limit : Nat) (choose : List Job → Nat) :
    ∀ queue inflight fatalFlag,
      launchesOf (runPool limit false choose queue inflight fatalFlag) =
        queue.map (·.id) := by
  intro queue
  induction queue with
  | nil =>
    intro inflight fatalFlag
    simp [runPool, drainPool, launchesOf_drainPoolAux]
  | cons j rest ih =>
    intro inflight fatalFlag
    rw [runPool]
    simp only [Bool.false_and, if_neg (by simp : ¬ (false && fatalFlag) = true)]
    by_cases hfull : limit ≤ (inflight ++ [j]).length
    · rw [if_pos hfull]
      simp only [launchesOf, List.map_cons]
      rw [ih]
    · rw [if_neg hfull]
      simp only [launchesOf, List.map_cons]
      rw [ih]

/-- With `stopFatal = true` (the image stage) but no permission-failing
worker anywhere, every input job is admitted, in order. -/
theorem launchesOf_runPool_noFatal (limit : Nat) (choose : List Job → Nat) :
    ∀ queue inflight,
      (∀ x ∈ inflight ++ queue, x.outcome ≠ .fatalErr) →
      launchesOf (runPool limit true choose queue inflight false) =
        queue.map (·.id) := by
  intro queue
  induction queue with
  | nil =>
    intro inflight _
    simp [runPool, drainPool, launchesOf_drainPoolAux]
  | cons j rest ih =>
    intro inflight hall
    rw [runPool]
    simp only [Bool.and_false, if_neg (by simp : ¬ (true && false) = true)]
    by_cases hfull : limit ≤ (inflight ++ [j]).length
    · rw [if_pos hfull]
      have hi : choose (inflight ++ [j]) % (inflight ++ [j]).length <
          (inflight ++ [j]).length := Nat.mod_lt _ (by simp)
      have hmem : (inflight ++ [j]).get
          ⟨choose (inflight ++ [j]) % (inflight ++ [j]).length, hi⟩ ∈
            inflight ++ [j] := List.get_mem _ _ hi
      have hmem2 : (inflight ++ [j]).get
          ⟨choose (inflight ++ [j]) % (inflight ++ [j]).length, hi⟩ ∈
            inflight ++ j :: rest := by
        rcases List.mem_append.mp hmem with h | h
        · exact List.mem_append.mpr (Or.inl h)
        · simp at h
          exact List.mem_append.mpr (Or.inr (by simp [h]))
      have hnf := hall _ hmem2
      have hdec : decide (((inflight ++ [j]).get
          ⟨choose (inflight ++ [j]) % (inflight ++ [j]).length, hi⟩).outcome =
            SchedOutcome.fatalErr) = false := decide_eq_false hnf
      simp only [launchesOf, List.map_cons]
      rw [show (false || (true && decide (((inflight ++ [j]).get
          ⟨choose (inflight ++ [j]) % (inflight ++ [j]).length, hi⟩).outcome =
            SchedOutcome.fatalErr))) = false by rw [hdec]; simp]
      rw [ih]
      intro x hx
      rcases List.mem_append.mp hx with h | h
      · have hsub : x ∈ inflight ++ [j] := List.eraseIdx_subset _ _ h
        rcases List.mem_append.mp hsub with h2 | h2
        · exact hall x (List.mem_append.mpr (Or.inl h2))
        · simp at h2
          exact hall x (List.mem_append.mpr (Or.inr (by simp [h2])))
      · exact hall x (List.mem_append.mpr (Or.inr (by simp [h])))
    · rw [if_neg hfull]
      simp only [launchesOf, List.map_cons]
      rw [ih]
      intro x hx
      rcases List.mem_append.mp hx with h | h
      · rcases List.mem_append.mp h with h2 | h2
        · exact hall x (List.mem_append.mpr (Or.inl h2))
        · simp at h2
          exact hall x (List.mem_append.mpr (Or.inr (by simp [h2])))
      · exact hall x (List.mem_append.mpr (Or.inr (by simp [h])))

theorem settle_not_start {e : SchedEvent} (h : isSettleEv e = true) :
    isStartEv e = false := by
  cases e with
  | start i => simp [isSettleEv] at h
  | settle i o => rfl

theorem mem_drainPool_settle (choose : List Job → Nat) (l : List Job) :
    ∀ e ∈ drainPool choose l, isSettleEv e = true := by
  intro e he
  exact drainPoolAux_all_settle choose l.length l e he

/-- The trace from any scheduler state either begins with an admission
or consists only of settles. -/
theorem runPool_head (limit : Nat) (stopFatal : Bool) (choose : List Job → Nat)
    (queue inflight : List Job) (fatalFlag : Bool) :
    (∃ a t, runPool limit stopFatal choose queue inflight fatalFlag = .start a :: t) ∨
    (∀ e ∈ runPool limit stopFatal choose queue inflight fatalFlag,
      isSettleEv e = true) := by
  cases queue with
  | nil =>
    right
    intro e he
    rw [runPool] at he
    exact mem_drainPool_settle choose inflight e he
  | cons j rest =>
    rw [runPool]
    by_cases hf : stopFatal && fatalFlag
    · rw [if_pos hf]
      right
      intro e he
      exact mem_drainPool_settle choose inflight e he
    · rw [if_neg hf]
      by_cases hfull : limit ≤ (inflight ++ [j]).length
      · rw [if_pos hfull]
        left
        exact ⟨j.id, _, rfl⟩
      · rw [if_neg hfull]
        left
        exact ⟨j.id, _, rfl⟩

/-- As soon as a settle is observed, the very next event is an admission
— unless the scheduler is only draining (no admissions follow at all). -/
theorem runPool_settle_then (limit : Nat) (stopFatal : Bool) (choose : List Job → Nat) :
    ∀ queue inflight fatalFlag pre i o post,
      runPool limit stopFatal choose queue inflight fatalFlag =
        pre ++ .settle i o :: post →
      (∃ a t, post = .start a :: t) ∨ ∀ e ∈ post, isSettleEv e = true := by
  intro queue
  induction queue with
  | nil =>
    intro inflight fatalFlag pre i o post h
    rw [runPool] at h
    right
    intro e he
    refine mem_drainPool_settle choose inflight e ?_
    rw [h]
    exact List.mem_append_right _ (List.mem_cons_of_mem _ he)
  | cons j rest ih =>
    intro inflight fatalFlag pre i o post h
    rw [runPool] at h
    by_cases hf : stopFatal && fatalFlag
    · rw [if_pos hf] at h
      right
      intro e he
      refine mem_drainPool_settle choose inflight e ?_
      rw [h]
      exact List.mem_append_right _ (List.mem_cons_of_mem _ he)
    · rw [if_neg hf] at h
      by_cases hfull : limit ≤ (inflight ++ [j]).length
      · rw [if_pos hfull] at h
        cases pre with
        | nil => simp at h
        | cons x pre1 =>
          simp only [List.cons_append, List.cons.injEq] at h
          obtain ⟨hx, h⟩ := h
          cases pre1 with
          | nil =>
            simp only [List.nil_append, List.cons.injEq] at h
            obtain ⟨hso, hT⟩ := h
            rcases runPool_head limit stopFatal choose rest _ _ with ⟨a, t, hh⟩ | hall
            · left
              exact ⟨a, t, by rw [← hT, hh]⟩
            · right
              intro e he
              refine hall e ?_
              rw [hT]
              exact he
          | cons y pre2 =>
            simp only [List.cons_append, List.cons.injEq] at h
            obtain ⟨hy, h⟩ := h
            exact ih _ _ pre2 i o post h
      · rw [if_neg hfull] at h
        cases pre with
        | nil => simp at h
        | cons x pre1 =>
          simp only [List.cons_append, List.cons.injEq] at h
          obtain ⟨hx, h⟩ := h
          exact ih _ _ pre1 i o post h

/-- Once the image-stage fatal flag is set, the scheduler only drains:
no admissions at all. -/
theorem runPool_stop_no_start (limit : Nat) (choose : List Job → Nat) :
    ∀ queue inflight, ∀ e ∈ runPool limit true choose queue inflight true,
      isStartEv e = false := by
  intro queue inflight e he
  cases queue with
  | nil =>
    rw [runPool] at he
    exact settle_not_start (mem_drainPool_settle choose inflight e he)
  | cons j rest =>
    rw [runPool] at he
    rw [if_pos (by simp : (true && true) = true)] at he
    exact settle_not_start (mem_drainPool_settle choose inflight e he)

/-- After a batch-fatal settle is observed in the image stage, no
further admission occurs. -/
theorem runPool_no_start_after_fatal (limit : Nat) (choose : List Job → Nat) :
    ∀ queue inflight fatalFlag pre i post,
      runPool limit true choose queue inflight fatalFlag =
        pre ++ .settle i SchedOutcome.fatalErr :: post →
      ∀ e ∈ post, isStartEv e = false := by
  intro queue
  induction queue with
  | nil =>
    intro inflight fatalFlag pre i post h e he
    rw [runPool] at h
    refine settle_not_start (mem_drainPool_settle choose inflight e ?_)
    rw [h]
    exact List.mem_append_right _ (List.mem_cons_of_mem _ he)
  | cons j rest ih =>
    intro inflight fatalFlag pre i post h e he
    rw [runPool] at h
    by_cases hf : (true && fatalFlag) = true
    · rw [if_pos hf] at h
      refine settle_not_start (mem_drainPool_settle choose inflight e ?_)
      rw [h]
      exact List.mem_append_right _ (List.mem_cons_of_mem _ he)
    · rw [if_neg hf] at h
      by_cases hfull : limit ≤ (inflight ++ [j]).length
      · rw [if_pos hfull] at h
        cases pre with
        | nil => simp at h
        | cons x pre1 =>
          simp only [List.cons_append, List.cons.injEq] at h
          obtain ⟨hx, h⟩ := h
          cases pre1 with
          | nil =>
            simp only [List.nil_append, List.cons.injEq] at h
            obtain ⟨hso, hT⟩ := h
            obtain ⟨hid, houtcome⟩ := SchedEvent.settle.inj hso
            have hmem := he
            rw [← hT] at hmem
            rw [decide_eq_true houtcome] at hmem
            simp only [Bool.and_true, Bool.or_true] at hmem
            exact runPool_stop_no_start limit choose rest _ e hmem
          | cons y pre2 =>
            simp only [List.cons_append, List.cons.injEq] at h
            obtain ⟨hy, h⟩ := h
            exact ih _ _ pre2 i post h e he
      · rw [if_neg hfull] at h
        cases pre with
        | nil => simp at h
        | cons x pre1 =>
          simp only [List.cons_append, List.cons.injEq] at h
          obtain ⟨hx, h⟩ := h
          exact ih _ _ pre1 i post h e he

/-- Everything that is admitted (or was already in flight) settles
before the scheduler returns, and nothing else settles. -/
theorem settledIds_runPool_perm (limit : Nat) (stopFatal : Bool)
    (choose : List Job → Nat) :
    ∀ queue inflight fatalFlag,
      (settledIds (runPool limit stopFatal choose queue inflight fatalFlag)).Perm
        (inflight.map (·.id) ++
          launchesOf (runPool limit stopFatal choose queue inflight fatalFlag)) := by
  intro queue
  induction queue with
  | nil =>
    intro inflight fatalFlag
    rw [runPool]
    rw [show launchesOf (drainPool choose inflight) = [] from
      launchesOf_drainPoolAux choose inflight.length inflight]
    rw [List.append_nil]
    exact settledIds_drainPoolAux_perm choose inflight.length inflight le_rfl
  | cons j rest ih =>
    intro inflight fatalFlag
    rw [runPool]
    by_cases hf : stopFatal && fatalFlag
    · rw [if_pos hf]
      rw [show launchesOf (drainPool choose inflight) = [] from
        launchesOf_drainPoolAux choose inflight.length inflight]
      rw [List.append_nil]
      exact settledIds_drainPoolAux_perm choose inflight.length inflight le_rfl
    · rw [if_neg hf]
      by_cases hfull : limit ≤ (inflight ++ [j]).length
      · rw [if_pos hfull]
        simp only [settledIds, launchesOf]
        have hi : choose (inflight ++ [j]) % (inflight ++ [j]).length <
            (inflight ++ [j]).length := Nat.mod_lt _ (by simp)
        have hrec := ih ((inflight ++ [j]).eraseIdx
            (choose (inflight ++ [j]) % (inflight ++ [j]).length))
          (fatalFlag || (stopFatal && decide (((inflight ++ [j]).get
            ⟨choose (inflight ++ [j]) % (inflight ++ [j]).length, hi⟩).outcome =
              SchedOutcome.fatalErr)))
        have hperm := perm_get_cons_eraseIdx (inflight ++ [j])
          (choose (inflight ++ [j]) % (inflight ++ [j]).length) hi
        have hmap := hperm.map (·.id)
        simp only [List.map_cons] at hmap
        have step1 := hrec.cons (((inflight ++ [j]).get
          ⟨choose (inflight ++ [j]) % (inflight ++ [j]).length, hi⟩).id)
        have step3 := (hmap.symm).append_right
          (launchesOf (runPool limit stopFatal choose rest
            ((inflight ++ [j]).eraseIdx
              (choose (inflight ++ [j]) % (inflight ++ [j]).length))
            (fatalFlag || (stopFatal && decide (((inflight ++ [j]).get
              ⟨choose (inflight ++ [j]) % (inflight ++ [j]).length, hi⟩).outcome =
                SchedOutcome.fatalErr)))))
        have step4 : (inflight ++ [j]).map (·.id) ++
            launchesOf (runPool limit stopFatal choose rest
              ((inflight ++ [j]).eraseIdx
                (choose (inflight ++ [j]) % (inflight ++ [j]).length))
              (fatalFlag || (stopFatal && decide (((inflight ++ [j]).get
                ⟨choose (inflight ++ [j]) % (inflight ++ [j]).length, hi⟩).outcome =
                  SchedOutcome.fatalErr)))) =
            inflight.map (·.id) ++ (j.id :: launchesOf (runPool limit stopFatal choose rest
              ((inflight ++ [j]).eraseIdx
                (choose (inflight ++ [j]) % (inflight ++ [j]).length))
              (fatalFlag || (stopFatal && decide (((inflight ++ [j]).get
                ⟨choose (inflight ++ [j]) % (inflight ++ [j]).length, hi⟩).outcome =
                  SchedOutcome.fatalErr))))) := by
          simp
        exact (step1.trans step3).trans (by rw [step4])
      · rw [if_neg hfull]
        simp only [settledIds, launchesOf]
        have hrec := ih (inflight ++ [j]) fatalFlag
        have step : (inflight ++ [j]).map (·.id) ++
            launchesOf (runPool limit stopFatal choose rest (inflight ++ [j]) fatalFlag) =
            inflight.map (·.id) ++ (j.id :: launchesOf
              (runPool limit stopFatal choose rest (inflight ++ [j]) fatalFlag)) := by
          simp
        exact hrec.trans (by rw [step])

/-- From a state whose pool is full after one more admission, the trace
cannot begin with two consecutive admissions. -/
theorem runPool_not_start_start (limit : Nat) (stopFatal : Bool)
    (choose : List Job → Nat) :
    ∀ queue inflight fatalFlag, limit ≤ inflight.length + 1 →
      ∀ a b t, runPool limit stopFatal choose queue inflight fatalFlag ≠
        .start a :: .start b :: t := by
  intro queue inflight fatalFlag hge a b t heq
  cases queue with
  | nil =>
    rw [runPool] at heq
    have hmem : SchedEvent.start a ∈ drainPool choose inflight := by
      rw [heq]
      simp
    have := mem_drainPool_settle choose inflight _ hmem
    simp [isSettleEv] at this
  | cons j rest =>
    rw [runPool] at heq
    by_cases hf : stopFatal && fatalFlag
    · rw [if_pos hf] at heq
      have hmem : SchedEvent.start a ∈ drainPool choose inflight := by
        rw [heq]
        simp
      have := mem_drainPool_settle choose inflight _ hmem
      simp [isSettleEv] at this
    · rw [if_neg hf] at heq
      by_cases hfull : limit ≤ (inflight ++ [j]).length
      · rw [if_pos hfull] at heq
        simp at heq
      · rw [if_neg hfull] at heq
        refine hfull ?_
        simp only [List.length_append, List.length_cons, List.length_nil]
        omega

/-- A settle is never followed by two consecutive admissions: each
settle triggers at most one admission. -/
theorem runPool_one_admission (limit : Nat) (stopFatal : Bool)
    (choose : List Job → Nat) :
    ∀ queue inflight fatalFlag pre i o a b t,
      inflight.length < limit →
      runPool limit stopFatal choose queue inflight fatalFlag =
        pre ++ .settle i o :: .start a :: .start b :: t → False := by
  intro queue
  induction queue with
  | nil =>
    intro inflight fatalFlag pre i o a b t _ h
    rw [runPool] at h
    have hmem : SchedEvent.start a ∈ drainPool choose inflight := by
      rw [h]
      exact List.mem_append_right _ (by simp)
    have := mem_drainPool_settle choose inflight _ hmem
    simp [isSettleEv] at this
  | cons j rest ih =>
    intro inflight fatalFlag pre i o a b t hcur h
    rw [runPool] at h
    by_cases hf : stopFatal && fatalFlag
    · rw [if_pos hf] at h
      have hmem : SchedEvent.start a ∈ drainPool choose inflight := by
        rw [h]
        exact List.mem_append_right _ (by simp)
      have := mem_drainPool_settle choose inflight _ hmem
      simp [isSettleEv] at this
    · rw [if_neg hf] at h
      by_cases hfull : limit ≤ (inflight ++ [j]).length
      · rw [if_pos hfull] at h
        have hi : choose (inflight ++ [j]) % (inflight ++ [j]).length <
            (inflight ++ [j]).length := Nat.mod_lt _ (by simp)
        have hlen : ((inflight ++ [j]).eraseIdx
            (choose (inflight ++ [j]) % (inflight ++ [j]).length)).length =
            inflight.length := by
          have h1 := List.length_eraseIdx_add_one hi
          have h2 : (inflight ++ [j]).length = inflight.length + 1 := by simp
          omega
        cases pre with
        | nil => simp at h
        | cons x pre1 =>
          simp only [List.cons_append, List.cons.injEq] at h
          obtain ⟨hx, h⟩ := h
          cases pre1 with
          | nil =>
            simp only [List.nil_append, List.cons.injEq] at h
            obtain ⟨hso, hT⟩ := h
            refine runPool_not_start_start limit stopFatal choose rest _ _
              ?_ a b t hT
            rw [hlen]
            simp only [List.length_append, List.length_cons, List.length_nil] at hfull
            omega
          | cons y pre2 =>
            simp only [List.cons_append, List.cons.injEq] at h
            obtain ⟨hy, h⟩ := h
            exact ih _ _ pre2 i o a b t (by rw [hlen]; exact hcur) h
      · rw [if_neg hfull] at h
        cases pre with
        | nil => simp at h
        | cons x pre1 =>
          simp only [List.cons_append, List.cons.injEq] at h
          obtain ⟨hx, h⟩ := h
          refine ih _ _ pre1 i o a b t ?_ h
          simp only [List.length_append, List.length_cons, List.length_nil] at hfull ⊢
          omega

theorem launchesOf_append (l1 l2 : List SchedEvent) :
    launchesOf (l1 ++ l2) = launchesOf l1 ++ launchesOf l2 := by
  induction l1 with
  | nil => rfl
  | cons e l1 ih =>
    cases e with
    | start i => simp [launchesOf, ih]
    | settle i o => simp [launchesOf, ih]

theorem launchesOf_all_settle (l : List SchedEvent)
    (h : ∀ e ∈ l, isSettleEv e = true) : launchesOf l = [] := by
  induction l with
  | nil => rfl
  | cons e l ih =>
    cases e with
    | start i => simpa [isSettleEv] using h _ (List.mem_cons_self _ _)
    | settle i o =>
      simp only [launchesOf]
      exact ih (fun e he => h e (List.mem_cons_of_mem _ he))

/-- Counterexample to **C1** as stated: when a worker fails with a
batch-fatal permission error, an in-flight invocation settles while
scenes remain, yet no further admission occurs (the image-stage loop
breaks on `hasCriticalError`). -/
theorem C1_counterexample :
    ∃ pre i o post,
      generateImagesSched (fun _ => 0)
          [⟨0, .fatalErr⟩, ⟨1, .ok⟩, ⟨2, .ok⟩, ⟨3, .ok⟩] =
        pre ++ .settle i o :: post ∧
      (launchesOf pre).length <
        ([(⟨0, .fatalErr⟩ : Job), ⟨1, .ok⟩, ⟨2, .ok⟩, ⟨3, .ok⟩].map (·.id)).length ∧
      ¬ ∃ a t, post = SchedEvent.start a :: t := by
  refine ⟨[.start 0, .start 1, .start 2], 0, .fatalErr,
    [.settle 1 .ok, .settle 2 .ok], by decide, by decide, ?_⟩
  rintro ⟨a, t, h⟩
  simp at h

/-- C1 (amended). For every batch of scenes run through the image
or video stage with concurrency limit 3: at most 3 worker invocations
are in flight at any instant; scenes are admitted strictly in input
(id) order (a front segment of the input in general, the whole input
when no batch-fatal failure occurs — the video stage has no batch-fatal
case); and, *provided no worker fails with a batch-fatal permission
error in the image stage*, as soon as any in-flight invocation settles
exactly one more admission occurs if scenes remain (the next event is
an admission, and a settle is never followed by two admissions). -/
theorem C1_amended_bounded_scheduler (choose : List Job → Nat) (jobs : List Job) :
    peakInflight 0 (generateImagesSched choose jobs) ≤ 3 ∧
    peakInflight 0 (handleAnimateAllSched choose jobs) ≤ 3 ∧
    (∃ t, launchesOf (generateImagesSched choose jobs) ++ t = jobs.map (·.id)) ∧
    launchesOf (handleAnimateAllSched choose jobs) = jobs.map (·.id) ∧
    ((∀ x ∈ jobs, x.outcome ≠ .fatalErr) →
      launchesOf (generateImagesSched choose jobs) = jobs.map (·.id)) ∧
    ((∀ x ∈ jobs, x.outcome ≠ .fatalErr) →
      ∀ pre i o post, generateImagesSched choose jobs = pre ++ .settle i o :: post →
        (launchesOf pre).length < jobs.length → ∃ a t, post = .start a :: t) ∧
    (∀ pre i o post, handleAnimateAllSched choose jobs = pre ++ .settle i o :: post →
      (launchesOf pre).length < jobs.length → ∃ a t, post = .start a :: t) ∧
    (∀ pre i o a b t, generateImagesSched choose jobs =
      pre ++ .settle i o :: .start a :: .start b :: t → False) ∧
    (∀ pre i o a b t, handleAnimateAllSched choose jobs =
      pre ++ .settle i o :: .start a :: .start b :: t → False) := by
  refine ⟨?_, ?_, ?_, ?_, ?_, ?_, ?_, ?_, ?_⟩
  · exact peakInflight_runPool 3 true choose jobs [] false (by simp)
  · exact peakInflight_runPool 3 false choose jobs [] false (by simp)
  · exact launchesOf_runPool_app 3 true choose jobs [] false
  · exact launchesOf_runPool_noStop 3 choose jobs [] false
  · intro hnf
    exact launchesOf_runPool_noFatal 3 choose jobs [] (by simpa using hnf)
  · intro hnf pre i o post hdecomp hlen
    rcases runPool_settle_then 3 true choose jobs [] false pre i o post hdecomp
      with h | hall
    · exact h
    · exfalso
      have hfull : launchesOf (generateImagesSched choose jobs) = jobs.map (·.id) :=
        launchesOf_runPool_noFatal 3 choose jobs [] (by simpa using hnf)
    -- all admissions lie in `pre`, so the whole input was already admitted
      rw [hdecomp, launchesOf_append] at hfull
      have hpost : launchesOf (SchedEvent.settle i o :: post) = [] := by
        simp only [launchesOf]
        exact launchesOf_all_settle post hall
      rw [hpost, List.append_nil] at hfull
      have : (launchesOf pre).length = jobs.length := by
        rw [hfull, List.length_map]
      omega
  · intro pre i o post hdecomp hlen
    rcases runPool_settle_then 3 false choose jobs [] false pre i o post hdecomp
      with h | hall
    · exact h
    · exfalso
      have hfull : launchesOf (handleAnimateAllSched choose jobs) = jobs.map (·.id) :=
        launchesOf_runPool_noStop 3 choose jobs [] false
      rw [hdecomp, launchesOf_append] at hfull
      have hpost : launchesOf (SchedEvent.settle i o :: post) = [] := by
        simp only [launchesOf]
        exact launchesOf_all_settle post hall
      rw [hpost, List.append_nil] at hfull
      have : (launchesOf pre).length = jobs.length := by
        rw [hfull, List.length_map]
      omega
  · intro pre i o a b t h
    exact runPool_one_admission 3 true choose jobs [] false pre i o a b t (by simp) h
  · intro pre i o a b t h
    exact runPool_one_admission 3 false choose jobs [] false pre i o a b t (by simp) h

/-- Witness for the amended C1: four all-successful jobs under the
image stage — concurrency peak 3, all four admitted in order, and the
settle of job 0 is immediately followed by the admission of job 3. -/
theorem C1_witness :
    peakInflight 0 (generateImagesSched (fun _ => 0)
      [⟨0, .ok⟩, ⟨1, .ok⟩, ⟨2, .ok⟩, ⟨3, .ok⟩]) ≤ 3 ∧
    launchesOf (generateImagesSched (fun _ => 0)
      [⟨0, .ok⟩, ⟨1, .ok⟩, ⟨2, .ok⟩, ⟨3, .ok⟩]) = [0, 1, 2, 3] ∧
    (∃ a t, ([.start 3, .settle 1 .ok, .settle 2 .ok, .settle 3 .ok] :
      List SchedEvent) = .start a :: t) ∧
    launchesOf (handleAnimateAllSched (fun _ => 0)
      [⟨0, .ok⟩, ⟨1, .ok⟩, ⟨2, .ok⟩, ⟨3, .ok⟩]) = [0, 1, 2, 3] := by
  have hmain := C1_amended_bounded_scheduler (fun _ => 0)
    [⟨0, .ok⟩, ⟨1, .ok⟩, ⟨2, .ok⟩, ⟨3, .ok⟩]
  refine ⟨hmain.1, ?_, ?_, ?_⟩
  · have h := hmain.2.2.2.2.1 (by decide)
    rw [h]
    decide
  · exact hmain.2.2.2.2.2.1 (by decide)
      [.start 0, .start 1, .start 2] 0 .ok
      [.start 3, .settle 1 .ok, .settle 2 .ok, .settle 3 .ok]
      (by decide) (by decide)
  · have h := hmain.2.2.2.1
    rw [h]
    decide

/-- C2.  For every image-stage batch in which some scene's worker
fails with a permission/authorization (batch-fatal) error: the
scheduler admits no further scenes after that failure is observed;
every already-admitted scene reaches a terminal state (`completed` or
`error`, by the runner's terminal-status property) before the batch
reports the batch-fatal outcome (the scheduler drains all in-flight
workers before returning — every admitted id settles within the
trace); and a failure on one scene never cancels sibling scenes
already in flight or not yet admitted (in-flight siblings still settle;
with only scene-local failures all scenes are admitted and settle). -/
theorem C2_batch_fatal_halts_admissions (choose : List Job → Nat) (jobs : List Job) :
    (∀ pre i post,
      generateImagesSched choose jobs = pre ++ .settle i SchedOutcome.fatalErr :: post →
      ∀ e ∈ post, isStartEv e = false) ∧
    (∀ id, id ∈ launchesOf (generateImagesSched choose jobs) →
      id ∈ settledIds (generateImagesSched choose jobs)) ∧
    (∀ results : Nat → ImgAttemptResult,
      lastImgStatus (processScene results).1 = Option.some .completed ∨
      lastImgStatus (processScene results).1 = Option.some .error) ∧
    ((∀ x ∈ jobs, x.outcome ≠ .fatalErr) →
      launchesOf (generateImagesSched choose jobs) = jobs.map (·.id) ∧
      (settledIds (generateImagesSched choose jobs)).Perm (jobs.map (·.id))) := by
  have hperm := settledIds_runPool_perm 3 true choose jobs [] false
  simp only [List.map_nil, List.nil_append] at hperm
  refine ⟨?_, ?_, ?_, ?_⟩
  · intro pre i post hdecomp
    exact runPool_no_start_after_fatal 3 choose jobs [] false pre i post hdecomp
  · intro id hid
    exact hperm.mem_iff.mpr hid
  · intro results
    exact processSceneAux_terminal results 5 0 0 (by omega) (by omega) Option.none
  · intro hnf
    have hfull : launchesOf (generateImagesSched choose jobs) = jobs.map (·.id) :=
      launchesOf_runPool_noFatal 3 choose jobs [] (by simpa using hnf)
    exact ⟨hfull, hperm.trans (by
      rw [show launchesOf (runPool 3 true choose jobs [] false) =
        jobs.map (·.id) from hfull])⟩

/-- Witness for C2: in the batch `[fatal, ok, ok, ok]` (limit 3) the
fatal settle of job 0 is followed only by the drain settles of jobs 1
and 2 — no admission — and every admitted job settles; an all-ok batch
admits and settles everything. -/
theorem C2_witness :
    (∀ e ∈ ([.settle 1 .ok, .settle 2 .ok] : List SchedEvent), isStartEv e = false) ∧
    (0 : Nat) ∈ settledIds (generateImagesSched (fun _ => 0)
      [⟨0, .fatalErr⟩, ⟨1, .ok⟩, ⟨2, .ok⟩, ⟨3, .ok⟩]) ∧
    launchesOf (generateImagesSched (fun _ => 0)
      [⟨0, .ok⟩, ⟨1, .ok⟩, ⟨2, .ok⟩, ⟨3, .ok⟩]) = [0, 1, 2, 3] := by
  refine ⟨?_, ?_, ?_⟩
  · exact (C2_batch_fatal_halts_admissions (fun _ => 0)
      [⟨0, .fatalErr⟩, ⟨1, .ok⟩, ⟨2, .ok⟩, ⟨3, .ok⟩]).1
      [.start 0, .start 1, .start 2] 0 [.settle 1 .ok, .settle 2 .ok] (by decide)
  · exact (C2_batch_fatal_halts_admissions (fun _ => 0)
      [⟨0, .fatalErr⟩, ⟨1, .ok⟩, ⟨2, .ok⟩, ⟨3, .ok⟩]).2.1 0 (by decide)
  · exact ((C2_batch_fatal_halts_admissions (fun _ => 0)
      [⟨0, .ok⟩, ⟨1, .ok⟩, ⟨2, .ok⟩, ⟨3, .ok⟩]).2.2.2 (by decide)).1

/-! ## Scene Store transition system (the `setStoryboard` mutations)

Each constructor of `StoreStep` is one functional `setStoryboard(prev =>
...)` mutation of App.tsx, together with the condition under which its
call site fires.  The orchestrator guarantees at most one active runner
per scene and stage (`generateImages` is invoked on a fresh storyboard
or on the Retry-Errors subset `s.status === 'error' || !s.imageData`;
`handleAnimateAll` filters out scenes already `generating`), which is
what the `generating`-status preconditions of the mid-run mutations
record.  Scene ids are assigned as indices by the segmenter, hence the
`Nodup` initial condition. -/

/-- Update helper: `prev.scenes.map(s => s.id === sceneId ? { ...s, ... } : s)`. -/
def updScene (sb : List SceneRec) (sceneId : Nat) (f : SceneRec → SceneRec) :
    List SceneRec :=
  sb.map (fun s => if s.id = sceneId then f s else s)

/-- Lookup helper: `storyboard?.scenes.find(s => s.id === sceneId)`. -/
def findScene (sb : List SceneRec) (sceneId : Nat) : Option SceneRec :=
  sb.find? (fun s => s.id = sceneId)

/-- The guard and first mutation of `generateVideoForScene` (App.tsx
lines 175-182): `if (!scene || !scene.imageData) return;` then mark the
video status `generating`. -/
def generateVideoForSceneStart (sb : List SceneRec) (sceneId : Nat) : List SceneRec :=
  match findScene sb sceneId with
  | Option.none => sb
  | Option.some scene =>
    if scene.imageData = Option.none then sb
    else updScene sb sceneId (fun s => { s with videoStatus := .generating })

inductive StoreStep : List SceneRec → List SceneRec → Prop
  /-- Mutation `{ ...s, status: 'generating' }` (App.tsx lines 80-86): the image
  runner starts an attempt.  Its scene was selected fresh (`pending`, no
  image) or by the retry filter `s.status === 'error' || !s.imageData`;
  on later loop iterations the scene is `generating` and still has no
  image (only success, which exits the loop, stores one). -/
  | imgStart (sb : List SceneRec) (sceneId : Nat) (s : SceneRec)
      (hfind : findScene sb sceneId = Option.some s)
      (hsel : s.status = .error ∨ s.imageData = Option.none) :
      StoreStep sb (updScene sb sceneId (fun x => { x with status := .generating }))
  /-- Mutation `{ ...s, imageData, status: 'completed' }` (lines 91-97): the
  attempt this runner started (scene `generating`) succeeded. -/
  | imgComplete (sb : List SceneRec) (sceneId : Nat) (s : SceneRec) (d : String)
      (hfind : findScene sb sceneId = Option.some s)
      (hgen : s.status = .generating) :
      StoreStep sb (updScene sb sceneId
        (fun x => { x with imageData := Option.some d, status := .completed }))
  /-- Mutation `{ ...s, status: 'error' }` (lines 104-107, 114-117, 130-133). -/
  | imgError (sb : List SceneRec) (sceneId : Nat) (s : SceneRec)
      (hfind : findScene sb sceneId = Option.some s)
      (hgen : s.status = .generating) :
      StoreStep sb (updScene sb sceneId (fun x => { x with status := .error }))
  /-- The guarded entry of `generateVideoForScene` (lines 175-182). -/
  | vidStart (sb : List SceneRec) (sceneId : Nat) :
      StoreStep sb (generateVideoForSceneStart sb sceneId)
  /-- Mutation `{ ...s, videoStatus: 'completed', videoUri, videoBlob }`
  (lines 203-206): the video attempt this runner started succeeded. -/
  | vidComplete (sb : List SceneRec) (sceneId : Nat) (s : SceneRec)
      (uri : String) (blob : Option String)
      (hfind : findScene sb sceneId = Option.some s)
      (hgen : s.videoStatus = .generating) :
      StoreStep sb (updScene sb sceneId (fun x =>
        { x with videoStatus := .completed, videoUri := Option.some uri,
                 videoBlob := blob }))
  /-- Mutation `{ ...s, videoStatus: 'error' }` (lines 214-217). -/
  | vidError (sb : List SceneRec) (sceneId : Nat) (s : SceneRec)
      (hfind : findScene sb sceneId = Option.some s)
      (hgen : s.videoStatus = .generating) :
      StoreStep sb (updScene sb sceneId (fun x => { x with videoStatus := .error }))

/-- A freshly segmented scene: `status: 'pending', videoStatus: 'none'`,
no artifacts (geminiService.ts lines 95-102). -/
def initSceneRec (s : SceneRec) : Prop :=
  s.status = .pending ∧ s.videoStatus = .none ∧
  s.imageData = Option.none ∧ s.videoUri = Option.none

/-- Stores reachable from a freshly segmented storyboard by the
pipeline's mutations. -/
inductive Reachable : List SceneRec → Prop
  | init (sb : List SceneRec) (hids : (sb.map (·.id)).Nodup)
      (hinit : ∀ s ∈ sb, initSceneRec s) : Reachable sb
  | step (sb sb' : List SceneRec) (h : Reachable sb) (hstep : StoreStep sb sb') :
      Reachable sb'

def sceneInv (s : SceneRec) : Prop :=
  (s.imageData.isSome = true → s.status = .completed) ∧
  (s.status = .completed → s.imageData.isSome = true) ∧
  (s.videoStatus ≠ .none → s.status = .completed)

def storeInv (sb : List SceneRec) : Prop :=
  (sb.map (·.id)).Nodup ∧ ∀ s ∈ sb, sceneInv s

theorem updScene_map_id (sceneId : Nat) (f : SceneRec → SceneRec)
    (hf : ∀ x, (f x).id = x.id) :
    ∀ sb : List SceneRec, (updScene sb sceneId f).map (·.id) = sb.map (·.id) := by
  intro sb
  induction sb with
  | nil => rfl
  | cons a tl ih =>
    simp only [updScene, List.map_cons] at ih ⊢
    rw [ih]
    by_cases ha : a.id = sceneId
    · rw [if_pos ha, hf a]
    · rw [if_neg ha]

theorem findScene_spec {sb : List SceneRec} {sceneId : Nat} {s : SceneRec}
    (h : findScene sb sceneId = Option.some s) : s ∈ sb ∧ s.id = sceneId := by
  refine ⟨List.mem_of_find?_eq_some h, ?_⟩
  have := List.find?_some h
  simpa using this

theorem mem_updScene {sb : List SceneRec} {sceneId : Nat} {f : SceneRec → SceneRec}
    {s' : SceneRec} (h : s' ∈ updScene sb sceneId f) :
    ∃ x ∈ sb, s' = if x.id = sceneId then f x else x := by
  obtain ⟨x, hx, hfx⟩ := List.mem_map.mp h
  exact ⟨x, hx, hfx.symm⟩

theorem storeInv_step {sb sb' : List SceneRec} (hinv : storeInv sb)
    (hstep : StoreStep sb sb') : storeInv sb' := by
  obtain ⟨hnodup, hscenes⟩ := hinv
  cases hstep with
  | imgStart sceneId s hfind hsel =>
    refine ⟨?_, ?_⟩
    · rw [updScene_map_id sceneId
        (fun x => { x with status := ImgStatus.generating }) (fun x => rfl)]
      exact hnodup
    · intro s' hs'
      obtain ⟨x, hx, rfl⟩ := mem_updScene hs'
      by_cases hxid : x.id = sceneId
      · rw [if_pos hxid]
        obtain ⟨hsmem, hsid⟩ := findScene_spec hfind
        have hxs : x = s := List.inj_on_of_nodup_map hnodup hx hsmem (by rw [hxid, hsid])
        have hximg : x.imageData = Option.none := by
          rcases hsel with herr | himg
          · by_contra hne
            have hsome : x.imageData.isSome = true := Option.ne_none_iff_isSome.mp hne
            have hcomp := (hscenes x hx).1 hsome
            rw [hxs, herr] at hcomp
            exact ImgStatus.noConfusion hcomp
          · rw [hxs]
            exact himg
        have hvid : x.videoStatus = .none := by
          by_contra hne
          have hcomp := (hscenes x hx).2.2 hne
          have himgsome := (hscenes x hx).2.1 hcomp
          rw [hximg] at himgsome
          simp at himgsome
        simp [sceneInv, hximg, hvid]
      · rw [if_neg hxid]
        exact hscenes x hx
  | imgComplete sceneId s d hfind hgen =>
    refine ⟨?_, ?_⟩
    · rw [updScene_map_id sceneId
        (fun x => { x with imageData := Option.some d, status := ImgStatus.completed })
        (fun x => rfl)]
      exact hnodup
    · intro s' hs'
      obtain ⟨x, hx, rfl⟩ := mem_updScene hs'
      by_cases hxid : x.id = sceneId
      · rw [if_pos hxid]
        obtain ⟨hsmem, hsid⟩ := findScene_spec hfind
        have hxs : x = s := List.inj_on_of_nodup_map hnodup hx hsmem (by rw [hxid, hsid])
        have hgenx : x.status = .generating := by rw [hxs]; exact hgen
        have hvid : x.videoStatus = .none := by
          by_contra hne
          have hcomp := (hscenes x hx).2.2 hne
          rw [hgenx] at hcomp
          exact ImgStatus.noConfusion hcomp
        simp [sceneInv, hvid]
      · rw [if_neg hxid]
        exact hscenes x hx
  | imgError sceneId s hfind hgen =>
    refine ⟨?_, ?_⟩
    · rw [updScene_map_id sceneId
        (fun x => { x with status := ImgStatus.error }) (fun x => rfl)]
      exact hnodup
    · intro s' hs'
      obtain ⟨x, hx, rfl⟩ := mem_updScene hs'
      by_cases hxid : x.id = sceneId
      · rw [if_pos hxid]
        obtain ⟨hsmem, hsid⟩ := findScene_spec hfind
        have hxs : x = s := List.inj_on_of_nodup_map hnodup hx hsmem (by rw [hxid, hsid])
        have hgenx : x.status = .generating := by rw [hxs]; exact hgen
        have hximg : x.imageData = Option.none := by
          by_contra hne
          have hsome : x.imageData.isSome = true := Option.ne_none_iff_isSome.mp hne
          have hcomp := (hscenes x hx).1 hsome
          rw [hgenx] at hcomp
          exact ImgStatus.noConfusion hcomp
        have hvid : x.videoStatus = .none := by
          by_contra hne
          have hcomp := (hscenes x hx).2.2 hne
          rw [hgenx] at hcomp
          exact ImgStatus.noConfusion hcomp
        simp [sceneInv, hximg, hvid]
      · rw [if_neg hxid]
        exact hscenes x hx
  | vidStart sceneId =>
    unfold generateVideoForSceneStart
    cases hfind : findScene sb sceneId with
    | none => exact ⟨hnodup, hscenes⟩
    | some scene =>
      simp only []
      by_cases himg : scene.imageData = Option.none
      · rw [if_pos himg]
        exact ⟨hnodup, hscenes⟩
      · rw [if_neg himg]
        refine ⟨?_, ?_⟩
        · rw [updScene_map_id sceneId
            (fun s => { s with videoStatus := VidStatus.generating }) (fun x => rfl)]
          exact hnodup
        · intro s' hs'
          obtain ⟨x, hx, rfl⟩ := mem_updScene hs'
          by_cases hxid : x.id = sceneId
          · rw [if_pos hxid]
            obtain ⟨hsmem, hsid⟩ := findScene_spec hfind
            have hxs : x = scene :=
              List.inj_on_of_nodup_map hnodup hx hsmem (by rw [hxid, hsid])
            have hsome : x.imageData.isSome = true := by
              rw [hxs]
              exact Option.ne_none_iff_isSome.mp himg
            have hcomp := (hscenes x hx).1 hsome
            simp [sceneInv, hcomp, hsome]
          · rw [if_neg hxid]
            exact hscenes x hx
  | vidComplete sceneId s uri blob hfind hgen =>
    refine ⟨?_, ?_⟩
    · rw [updScene_map_id sceneId
        (fun x => { x with
          videoStatus := VidStatus.completed
          videoUri := Option.some uri
          videoBlob := blob })
        (fun x => rfl)]
      exact hnodup
    · intro s' hs'
      obtain ⟨x, hx, rfl⟩ := mem_updScene hs'
      by_cases hxid : x.id = sceneId
      · rw [if_pos hxid]
        obtain ⟨hsmem, hsid⟩ := findScene_spec hfind
        have hxs : x = s := List.inj_on_of_nodup_map hnodup hx hsmem (by rw [hxid, hsid])
        have hvgen : x.videoStatus = .generating := by rw [hxs]; exact hgen
        have hcomp := (hscenes x hx).2.2 (by simp [hvgen])
        have hsome := (hscenes x hx).2.1 hcomp
        simp [sceneInv, hcomp, hsome]
      · rw [if_neg hxid]
        exact hscenes x hx
  | vidError sceneId s hfind hgen =>
    refine ⟨?_, ?_⟩
    · rw [updScene_map_id sceneId
        (fun x => { x with videoStatus := VidStatus.error }) (fun x => rfl)]
      exact hnodup
    · intro s' hs'
      obtain ⟨x, hx, rfl⟩ := mem_updScene hs'
      by_cases hxid : x.id = sceneId
      · rw [if_pos hxid]
        obtain ⟨hsmem, hsid⟩ := findScene_spec hfind
        have hxs : x = s := List.inj_on_of_nodup_map hnodup hx hsmem (by rw [hxid, hsid])
        have hvgen : x.videoStatus = .generating := by rw [hxs]; exact hgen
        have hcomp := (hscenes x hx).2.2 (by simp [hvgen])
        have hsome := (hscenes x hx).2.1 hcomp
        simp [sceneInv, hcomp, hsome]
      · rw [if_neg hxid]
        exact hscenes x hx

theorem reachable_storeInv {sb : List SceneRec} (h : Reachable sb) : storeInv sb := by
  induction h with
  | init sb hids hinit =>
    refine ⟨hids, ?_⟩
    intro s hs
    obtain ⟨hp, hv, hi, _⟩ := hinit s hs
    simp [sceneInv, hp, hv, hi]
  | step sb sb' h hstep ih => exact storeInv_step ih hstep

/-- C7.  For every scene and every reachable state of the Scene
Store, the scene's video stage status leaves `none` (becomes
`generating`, `completed`, or `error`) only if the scene's image stage
is `completed` with an image artifact present; invoking the video-stage
runner on a scene without an image artifact (or a missing scene) is a
no-op that leaves the store unchanged. -/
theorem C7_video_stage_requires_completed_image :
    (∀ sb, Reachable sb → ∀ s ∈ sb, s.videoStatus ≠ .none →
      s.status = .completed ∧ s.imageData.isSome = true) ∧
    (∀ sb sceneId, findScene sb sceneId = Option.none →
      generateVideoForSceneStart sb sceneId = sb) ∧
    (∀ sb sceneId s, findScene sb sceneId = Option.some s →
      s.imageData = Option.none → generateVideoForSceneStart sb sceneId = sb) := by
  refine ⟨?_, ?_, ?_⟩
  · intro sb hreach s hs hvne
    obtain ⟨_, hinv⟩ := reachable_storeInv hreach
    have hcomp := (hinv s hs).2.2 hvne
    exact ⟨hcomp, (hinv s hs).2.1 hcomp⟩
  · intro sb sceneId hfind
    unfold generateVideoForSceneStart
    rw [hfind]
  · intro sb sceneId s hfind himg
    unfold generateVideoForSceneStart
    rw [hfind]
    simp only []
    rw [if_pos himg]

/-- A freshly segmented one-scene store, for the C7 witness. -/
def demoScene : SceneRec :=
  { id := 0
    text := "t"
    visualPrompt := Option.some "p"
    duration := 3
    imageData := Option.none
    videoUri := Option.none
    videoBlob := Option.none
    status := .pending
    videoStatus := .none }

/-- Witness for C7: a one-scene freshly segmented store is reachable
and satisfies the invariant; the video runner is a no-op both for an
unknown id and for the pending scene without an image. -/
theorem C7_witness :
    (∀ s ∈ [demoScene], s.videoStatus ≠ .none →
      s.status = .completed ∧ s.imageData.isSome = true) ∧
    generateVideoForSceneStart [demoScene] 5 = [demoScene] ∧
    generateVideoForSceneStart [demoScene] 0 = [demoScene] := by
  refine ⟨?_, ?_, ?_⟩
  · exact C7_video_stage_requires_completed_image.1 _
      (Reachable.init _ (by simp) (by
        intro s hs
        simp at hs
        subst hs
        exact ⟨rfl, rfl, rfl, rfl⟩))
  · exact C7_video_stage_requires_completed_image.2.1 _ 5 (by rfl)
  · exact C7_video_stage_requires_completed_image.2.2 _ 0 demoScene (by rfl) rfl

/-! ## Export gate (`handleExportFullVideo`, App.tsx lines 328-335)

`const scenesWithVideos = storyboard.scenes.filter(s => s.videoUri); if
(scenesWithVideos.length !== storyboard.scenes.length) { setError(...);
return; }` — the early return happens before the blob-collection loop
and before `stitchVideos` is dynamically imported or called, so on the
error path the stitch collaborator is never invoked; this is reflected
in the model by the result being `.error` for *every* stitch function.
The error message reports `storyboard.scenes.length -
scenesWithVideos.length` scenes still needing videos. -/

def handleExportFullVideoGate {α : Type} (stitch : List String → α)
    (scenes : List SceneRec) : Except Nat α :=
  if (scenes.filter (fun s => s.videoUri.isSome)).length ≠ scenes.length then
    .error (scenes.length - (scenes.filter (fun s => s.videoUri.isSome)).length)
  else
    .ok (stitch (scenes.filterMap (fun s => s.videoUri)))

/-- C9.  For every storyboard in which at least one scene lacks a
video, requesting export fails with an error reporting the number of
scenes still missing videos, and the stitch collaborator is never
invoked in that run (the result is the same `.error` whatever the
stitch function is — it is never consulted). -/
theorem C9_export_fails_on_missing_videos {α : Type} (stitch : List String → α)
    (scenes : List SceneRec) :
    (∃ s ∈ scenes, s.videoUri = Option.none) →
    handleExportFullVideoGate stitch scenes =
      .error ((scenes.filter (fun s => s.videoUri = Option.none)).length) := by
  rintro ⟨s0, hs0, hnone⟩
  have hsplit := List.length_eq_length_filter_add
    (l := scenes) (fun s : SceneRec => s.videoUri.isSome)
  have hmem : s0 ∈ scenes.filter (fun s => !(s.videoUri.isSome)) :=
    List.mem_filter.mpr ⟨hs0, by simp [hnone]⟩
  have hpos : 0 < (scenes.filter (fun s => !(s.videoUri.isSome))).length :=
    List.length_pos.mpr (List.ne_nil_of_mem hmem)
  have hcong : scenes.filter (fun s => s.videoUri = Option.none) =
      scenes.filter (fun s => !(s.videoUri.isSome)) :=
    List.filter_congr (fun a _ => by cases h : a.videoUri <;> simp [h])
  have hadd : scenes.length = (scenes.filter (fun s => s.videoUri.isSome)).length +
      (scenes.filter (fun s => !(s.videoUri.isSome))).length := by
    simpa using hsplit
  unfold handleExportFullVideoGate
  rw [if_pos (by omega)]
  rw [hcong]
  congr 1
  omega

/-- Witness for C9: a single pending scene with no video makes the
export gate fail with `IncompleteScenes(1)` for an arbitrary stitch
collaborator. -/
theorem C9_witness :
    handleExportFullVideoGate (fun _ => (0 : Nat)) [demoScene] = .error 1 := by
  have h := C9_export_fails_on_missing_videos (fun _ => (0 : Nat)) [demoScene]
    ⟨demoScene, by simp, rfl⟩
  rw [h]
  rfl

end ReelGen
